import Mathlib

/-!
Shallow embedding of the donor-analytics core of the repository:
the data-ingestion pipeline (field mapping, value normalization, record
building via `DataParser.processRawData`, donor grouping via
`DataParser.groupByDonor`) and the analytics engine (`DonorAnalytics`:
monthly trends, retention, linear-regression forecast), both from
`src/utils/dateUtils.ts`, plus the Pearson correlation from
`project/src/components/CorrelationAnalysis.tsx`.

Modelling conventions:
- JavaScript numbers are modelled by `ℚ` where the code only performs
  exact-on-integers arithmetic, and by `JSNum` (a rational extended with
  `NaN`/`Infinity`) where the code can divide by zero, so that the
  IEEE-754 non-finite outcomes of such divisions are represented
  faithfully.  The Pearson coefficient uses `ℝ` because the source uses
  `Math.sqrt`.
- JavaScript `Date` objects are modelled by `JSDate` (year, 0-based
  month as produced by `getMonth()`, day).  Comparison of `Date`s by
  epoch time is modelled by a lexicographic rank, which agrees with
  epoch-time order on calendar dates.
- JavaScript objects used as string-keyed records are modelled by
  association lists in key-insertion order; `Map` and `Set` are
  modelled by association lists / duplicate-free lists in insertion
  order, matching their iteration semantics.
- `Array.prototype.sort` (a stable sort) is modelled by
  `List.insertionSort`; no claim below observes the order of entries
  whose sort keys tie.
-/

/-- Models a JavaScript `Date`: calendar year, 0-based month (as returned
by `getMonth()`), and day of month. -/
structure JSDate where
  year : Int
  month : Nat
  day : Nat
deriving DecidableEq, Repr

/-- Linearizes a date for comparison; on calendar dates (month < 12,
day < 100) this orders exactly like the epoch timestamp that JavaScript
compares `Date` objects by. -/
def JSDate.rank (d : JSDate) : Int :=
  d.year * 10000 + (d.month : Int) * 100 + (d.day : Int)

/-- Models the JavaScript comparison `d1 < d2` on `Date` values. -/
def JSDate.ltB (a b : JSDate) : Bool :=
  decide (a.rank < b.rank)

/-- Date order used to state `firstDonation <= lastDonation`. -/
def JSDate.le (a b : JSDate) : Prop :=
  a.rank ≤ b.rank

instance : DecidablePred fun p : JSDate × JSDate => p.1.le p.2 :=
  fun p => inferInstanceAs (Decidable (p.1.rank ≤ p.2.rank))

instance (a b : JSDate) : Decidable (a.le b) :=
  inferInstanceAs (Decidable (a.rank ≤ b.rank))

/-- Models an IEEE-754 double as JavaScript computes with: either a finite
value (kept exact as a rational), `NaN`, or a signed infinity. -/
inductive JSNum where
  | nan : JSNum
  | inf : JSNum
  | ninf : JSNum
  | num : ℚ → JSNum
deriving DecidableEq, Repr

/-- Models JavaScript `+` on numbers (NaN propagates, opposite infinities
give NaN). -/
def jsAdd : JSNum → JSNum → JSNum
  | .nan, _ => .nan
  | _, .nan => .nan
  | .inf, .ninf => .nan
  | .ninf, .inf => .nan
  | .inf, _ => .inf
  | _, .inf => .inf
  | .ninf, _ => .ninf
  | _, .ninf => .ninf
  | .num a, .num b => .num (a + b)

/-- Models JavaScript unary minus on numbers. -/
def jsNeg : JSNum → JSNum
  | .nan => .nan
  | .inf => .ninf
  | .ninf => .inf
  | .num a => .num (-a)

/-- Models JavaScript `-` on numbers. -/
def jsSub (a b : JSNum) : JSNum :=
  jsAdd a (jsNeg b)

/-- Models JavaScript `*` on numbers (NaN propagates, infinity times zero
is NaN). -/
def jsMul : JSNum → JSNum → JSNum
  | .nan, _ => .nan
  | _, .nan => .nan
  | .inf, .inf => .inf
  | .inf, .ninf => .ninf
  | .ninf, .inf => .ninf
  | .ninf, .ninf => .inf
  | .inf, .num b => if b = 0 then .nan else if 0 < b then .inf else .ninf
  | .num a, .inf => if a = 0 then .nan else if 0 < a then .inf else .ninf
  | .ninf, .num b => if b = 0 then .nan else if 0 < b then .ninf else .inf
  | .num a, .ninf => if a = 0 then .nan else if 0 < a then .ninf else .inf
  | .num a, .num b => .num (a * b)

/-- Models JavaScript `/` on numbers: `0/0 = NaN`, `x/0 = ±Infinity` for
finite nonzero `x`, `x/±Infinity = 0`, infinities over infinities NaN. -/
def jsDiv : JSNum → JSNum → JSNum
  | .nan, _ => .nan
  | _, .nan => .nan
  | .inf, .inf => .nan
  | .inf, .ninf => .nan
  | .ninf, .inf => .nan
  | .ninf, .ninf => .nan
  | .inf, .num b => if 0 ≤ b then .inf else .ninf
  | .ninf, .num b => if 0 ≤ b then .ninf else .inf
  | .num _, .inf => .num 0
  | .num _, .ninf => .num 0
  | .num a, .num b =>
      if b = 0 then (if a = 0 then .nan else if 0 < a then .inf else .ninf)
      else .num (a / b)

/-- Division of two finite JavaScript numbers, as in the source's
`a / b` on plain numeric variables. -/
def jsDivQ (a b : ℚ) : JSNum :=
  jsDiv (.num a) (.num b)

/-- Models `Math.max` on two numbers (NaN absorbs). -/
def jsMax : JSNum → JSNum → JSNum
  | .nan, _ => .nan
  | _, .nan => .nan
  | .inf, _ => .inf
  | _, .inf => .inf
  | .ninf, b => b
  | a, .ninf => a
  | .num a, .num b => .num (max a b)

/-- Models `Math.min` on two numbers (NaN absorbs). -/
def jsMin : JSNum → JSNum → JSNum
  | .nan, _ => .nan
  | _, .nan => .nan
  | .ninf, _ => .ninf
  | _, .ninf => .ninf
  | .inf, b => b
  | a, .inf => a
  | .num a, .num b => .num (min a b)

/-- Models JavaScript `<` on numbers: any comparison with NaN is false. -/
def jsLtB : JSNum → JSNum → Bool
  | .nan, _ => false
  | _, .nan => false
  | .inf, _ => false
  | _, .inf => true
  | .ninf, .ninf => false
  | .ninf, _ => true
  | _, .ninf => false
  | .num a, .num b => decide (a < b)

/-- Frequency classification of a donor, per `DonorData['donationFrequency']`. -/
inductive Frequency where
  | oneTime : Frequency
  | occasional : Frequency
  | regular : Frequency
  | frequent : Frequency
deriving DecidableEq, Repr

/-- Models the `Donation` record of `src/types`: one monetary gift as built
by the record builder.  `email`/`phone` are optional (`undefined` is
`none`); `donorId` is back-filled during grouping. -/
structure Donation where
  id : String
  firstName : String
  lastName : String
  amount : ℚ
  date : JSDate
  month : String
  year : Int
  email : Option String
  phone : Option String
  donorId : String
deriving DecidableEq, Repr

/-- Models the `DonorData` aggregate of `src/types`. -/
structure DonorData where
  id : String
  firstName : String
  lastName : String
  email : Option String
  phone : Option String
  donations : List Donation
  totalAmount : ℚ
  donationCount : Nat
  averageDonation : ℚ
  firstDonation : JSDate
  lastDonation : JSDate
  donationFrequency : Frequency
deriving DecidableEq, Repr

/-- Models one `MonthlyTrend` entry: month label (`'MMM yyyy'`), year,
summed amount, distinct-donor count, and per-donor average. -/
structure MonthlyTrend where
  month : String
  year : Int
  amount : ℚ
  donorCount : Nat
  averageDonation : ℚ
deriving DecidableEq, Repr

/-- Models `RetentionData`. -/
structure RetentionData where
  newDonors : Nat
  returningDonors : Nat
  retentionRate : ℚ
  churnRate : ℚ
deriving DecidableEq, Repr

/-- One forecast bucket (`predictedAmount`, `confidence`); `JSNum` because
the regression can produce NaN. -/
structure ForecastPoint where
  predictedAmount : JSNum
  confidence : JSNum
deriving DecidableEq, Repr

/-- Qualitative trend direction of the forecast. -/
inductive Direction where
  | up : Direction
  | down : Direction
  | stable : Direction
deriving DecidableEq, Repr

/-- Models `ForecastData`. -/
structure ForecastData where
  nextMonth : ForecastPoint
  nextQuarter : ForecastPoint
  trendDirection : Direction
deriving DecidableEq, Repr

/-- Models `AnalysisResult`, the single output snapshot of `analyzeData`.
`averageDonation` is a `JSNum` because the source divides without a zero
guard. -/
structure AnalysisResult where
  totalDonors : Nat
  totalAmount : ℚ
  averageDonation : JSNum
  donationCount : Nat
  topDonors : List DonorData
  monthlyTrends : List MonthlyTrend
  donorRetention : RetentionData
  forecast : ForecastData
deriving DecidableEq, Repr

/-- Models a raw spreadsheet cell value (`string | number`). -/
inductive CellValue where
  | str : String → CellValue
  | num : ℚ → CellValue
deriving DecidableEq, Repr

/-- Models JavaScript truthiness of a cell value: the empty string and the
number zero are falsy. -/
def CellValue.truthy : CellValue → Bool
  | .str s => s ≠ ""
  | .num q => q ≠ 0

/-- Truthiness of a possibly-absent (`undefined`) cell value. -/
def truthyOpt : Option CellValue → Bool
  | none => false
  | some v => v.truthy

/-- Models `value1 || value2` on possibly-absent cell values. -/
def jsOrVal : Option CellValue → Option CellValue → Option CellValue
  | some v, o2 => if v.truthy then some v else o2
  | none, o2 => o2

/-- Models a raw tabular row: a JavaScript object as an association list of
header name to cell value, in key order. -/
def RawRow : Type := List (String × CellValue)

/-- Looks a key up in an object modelled as an association list. -/
def alookup {κ α : Type} [DecidableEq κ] : List (κ × α) → κ → Option α
  | [], _ => none
  | (k, v) :: rest, key => if k = key then some v else alookup rest key

/-- Replaces the value at the first occurrence of a key (the object-update
part of `obj[k] = v` when `k` is already present). -/
def aupdate {κ α : Type} [DecidableEq κ] : List (κ × α) → κ → (α → α) → List (κ × α)
  | [], _, _ => []
  | (k, v) :: rest, key, f =>
      if k = key then (k, f v) :: rest else (k, v) :: aupdate rest key f

/-- Models `obj[k] = v` on a JavaScript object: overwrite if the key
exists (keeping its position), otherwise append. -/
def aset {κ α : Type} [DecidableEq κ] (m : List (κ × α)) (key : κ) (v : α) : List (κ × α) :=
  if (alookup m key).isSome then aupdate m key (fun _ => v) else m ++ [(key, v)]

/-- Models `Set.add` on a JavaScript `Set` kept as an insertion-ordered
duplicate-free list. -/
def addToSet {α : Type} [DecidableEq α] (s : List α) (x : α) : List α :=
  if x ∈ s then s else s ++ [x]

/-- Insertion-order deduplication, the result of adding a whole list to an
initially empty JavaScript `Set`. -/
def dedupKeep {α : Type} [DecidableEq α] (l : List α) : List α :=
  l.foldl addToSet []

/-- Character class of the regex `\w`: ASCII letters, digits, underscore. -/
def isWordChar (c : Char) : Bool :=
  c.isAlpha || c.isDigit || c = '_'

/-- Models `String.prototype.toLowerCase` for the ASCII headers the mapper
sees (implemented character-wise so it computes in the kernel). -/
def jsToLowerChar (c : Char) : Char :=
  if 'A' ≤ c ∧ c ≤ 'Z' then Char.ofNat (c.toNat + 32) else c

/-- Collapses each maximal run of whitespace to a single underscore,
modelling `replace(/\s+/g, '_')`.  The flag records whether the previous
character was whitespace. -/
def collapseWs : Bool → List Char → List Char
  | _, [] => []
  | prevWs, c :: rest =>
      if c.isWhitespace then
        (if prevWs then [] else ['_']) ++ collapseWs true rest
      else c :: collapseWs false rest

/-- Models header normalization:
`key.toLowerCase().replace(/\s+/g, '_').replace(/[^\w]/g, '')`. -/
def normalizeKey (s : String) : String :=
  String.mk ((collapseWs false (s.data.map jsToLowerChar)).filter isWordChar)

/-- Models `pattern.replace(/[^\w]/g, '')`. -/
def stripNonWord (s : String) : String :=
  String.mk (s.data.filter isWordChar)

/-- Decides whether `needle` occurs as a contiguous substring of the given
character list, modelling `String.prototype.includes`. -/
def infixOf (needle : List Char) : List Char → Bool
  | [] => needle.isEmpty
  | c :: rest => needle.isPrefixOf (c :: rest) || infixOf needle rest

/-- Models `s.includes(sub)`. -/
def strIncludes (s sub : String) : Bool :=
  infixOf sub.data s.data

/-- Models `String.prototype.trim`. -/
def jsTrim (s : String) : String :=
  String.mk (((s.data.dropWhile Char.isWhitespace).reverse.dropWhile Char.isWhitespace).reverse)

/-- Synonym patterns for `firstName` in `COMMON_FIELD_MAPPINGS`. -/
def firstNamePatterns : List String :=
  ["first_name", "firstname", "fname", "first", "given_name", "givenname", "name"]

/-- Synonym patterns for `lastName` in `COMMON_FIELD_MAPPINGS`. -/
def lastNamePatterns : List String :=
  ["last_name", "lastname", "lname", "last", "surname", "family_name", "familyname"]

/-- Synonym patterns for `amount` in `COMMON_FIELD_MAPPINGS`. -/
def amountPatterns : List String :=
  ["amount", "donation", "gift", "contribution", "value", "total", "sum", "dollars", "money"]

/-- Synonym patterns for `date` in `COMMON_FIELD_MAPPINGS`. -/
def datePatterns : List String :=
  ["date", "donation_date", "gift_date", "received_date", "received_on", "receivedon",
   "createdon", "created_on", "timestamp", "when", "time"]

/-- Synonym patterns for `month` in `COMMON_FIELD_MAPPINGS`. -/
def monthPatterns : List String :=
  ["month", "donation_month", "gift_month", "period"]

/-- Synonym patterns for `email` in `COMMON_FIELD_MAPPINGS`. -/
def emailPatterns : List String :=
  ["email", "email_address", "e_mail", "mail", "emailaddress"]

/-- Synonym patterns for `phone` in `COMMON_FIELD_MAPPINGS`. -/
def phonePatterns : List String :=
  ["phone", "phone_number", "telephone", "mobile", "phonenumber", "tel", "mobilenumber",
   "mobile_number"]

/-- Result of `mapFields`: the canonical fields, each possibly absent,
plus the unsplit combined `name` field the last fallback can produce. -/
structure MappedRow where
  firstName : Option CellValue
  lastName : Option CellValue
  amount : Option CellValue
  date : Option CellValue
  month : Option CellValue
  email : Option CellValue
  phone : Option CellValue
  name : Option CellValue
deriving DecidableEq, Repr

/-- Builds `normalizedRow`: iterate the row's keys in order, normalizing
each and assigning into a fresh object (later collisions overwrite the
value but keep the first key position). -/
def normalizeRow (row : RawRow) : List (String × CellValue) :=
  row.foldl (fun m kv => aset m (normalizeKey kv.1) kv.2) []

/-- Exact-synonym pass of `mapFields` for one canonical field: the first
pattern present in the normalized row wins and stops the scan, assigning
`normalizedRow[normalizedPattern] || normalizedRow[pattern]`.  A scan
that stops on a falsy-or-absent value leaves the field `undefined`,
which is what the later `=== undefined` test observes. -/
def exactMatch (nr : List (String × CellValue)) : List String → Option CellValue
  | [] => none
  | p :: ps =>
      let np := stripNonWord p
      if (alookup nr np).isSome || (alookup nr p).isSome then
        jsOrVal (alookup nr np) (alookup nr p)
      else exactMatch nr ps

/-- Substring-containment pass of `mapFields` for one canonical field: the
first row entry whose normalized key contains, or is contained in, some
pattern supplies its value (truthy or not). -/
def fuzzyMatch (patterns : List String) : List (String × CellValue) → Option CellValue
  | [] => none
  | (k, v) :: rest =>
      if patterns.any (fun p =>
          strIncludes k (stripNonWord p) || strIncludes (stripNonWord p) k) then
        some v
      else fuzzyMatch patterns rest

/-- One canonical field after the exact pass and, if that left it
`undefined`, the substring pass. -/
def baseField (nr : List (String × CellValue)) (patterns : List String) : Option CellValue :=
  match exactMatch nr patterns with
  | some v => some v
  | none => fuzzyMatch patterns nr

/-- Step of the name-detection fallback loop (`dataParser.ts` lines
439-447): a non-blank string value is taken for `firstName` when the key
contains `name`/`first` and `firstName` is still falsy, else for
`lastName` when the key contains `last`/`surname` and `lastName` is
still falsy. -/
def fallbackNameStep (acc : Option CellValue × Option CellValue) (kv : String × CellValue) :
    Option CellValue × Option CellValue :=
  match kv.2 with
  | .str s =>
      if jsTrim s ≠ "" then
        if ¬ (truthyOpt acc.1) ∧ (strIncludes kv.1 "name" || strIncludes kv.1 "first") then
          (some (.str s), acc.2)
        else if ¬ (truthyOpt acc.2) ∧ (strIncludes kv.1 "last" || strIncludes kv.1 "surname") then
          (acc.1, some (.str s))
        else acc
      else acc
  | _ => acc

/-- Name-detection fallback (`if (!mapped.firstName || !mapped.lastName)`),
a fold over the normalized row. -/
def fallbackNames (nr : List (String × CellValue)) (fn ln : Option CellValue) :
    Option CellValue × Option CellValue :=
  if ¬ (truthyOpt fn) ∨ ¬ (truthyOpt ln) then nr.foldl fallbackNameStep (fn, ln)
  else (fn, ln)

/-- Tests whether a string contains a digit, `.`, `,` or `$`, modelling
the regex test `/[\d.,$]/.test(value)`. -/
def looksNumeric (s : String) : Bool :=
  s.data.any (fun c => c.isDigit || c = '.' || c = ',' || c = '$')

/-- Amount-detection fallback (`if (!mapped.amount)`): every matching
entry overwrites, so the last numeric-looking amount-like column wins. -/
def fallbackAmount (nr : List (String × CellValue)) (am : Option CellValue) : Option CellValue :=
  if ¬ (truthyOpt am) then
    nr.foldl (fun acc kv =>
      if (match kv.2 with
          | .num _ => true
          | .str s => looksNumeric s) &&
         (strIncludes kv.1 "amount" || strIncludes kv.1 "donation" ||
          strIncludes kv.1 "gift" || strIncludes kv.1 "total") then
        some kv.2
      else acc) am
  else am

/-- Combined-name fallback (`if (!mapped.firstName && !mapped.lastName)`):
exposes a full-name column (key contains `name` but not `fund`/`batch`)
as the separate `name` field; every match overwrites. -/
def fallbackWholeName (nr : List (String × CellValue)) (fn ln : Option CellValue) :
    Option CellValue :=
  if ¬ (truthyOpt fn) ∧ ¬ (truthyOpt ln) then
    nr.foldl (fun acc kv =>
      match kv.2 with
      | .str s =>
          if jsTrim s ≠ "" ∧ strIncludes kv.1 "name" ∧ ¬ (strIncludes kv.1 "fund" = true) ∧
             ¬ (strIncludes kv.1 "batch" = true) then
            some (.str s)
          else acc
      | _ => acc) none
  else none

/-- Models `DataParser.mapFields`: normalize the headers, run the exact
and substring passes per canonical field, then the three content
fallbacks, in source order. -/
def mapFields (row : RawRow) : MappedRow :=
  let nr := normalizeRow row
  let fn0 := baseField nr firstNamePatterns
  let ln0 := baseField nr lastNamePatterns
  let am0 := baseField nr amountPatterns
  let dt := baseField nr datePatterns
  let mo := baseField nr monthPatterns
  let em := baseField nr emailPatterns
  let ph := baseField nr phonePatterns
  let fl := fallbackNames nr fn0 ln0
  let am := fallbackAmount nr am0
  let nm := fallbackWholeName nr fl.1 fl.2
  { firstName := fl.1, lastName := fl.2, amount := am, date := dt, month := mo,
    email := em, phone := ph, name := nm }

/-- Numeric value of a digit list (most significant first). -/
def digitsVal (l : List Char) : ℚ :=
  l.foldl (fun a c => a * 10 + (c.toNat - '0'.toNat : ℕ)) 0

/-- Value of a fraction-digit list ('5' ↦ 0.5, '2','5' ↦ 0.25). -/
def fracVal (l : List Char) : ℚ :=
  l.foldr (fun c a => (a + (c.toNat - '0'.toNat : ℕ)) / 10) 0

/-- Models `parseFloat` on a string already stripped to digits, `.` and
`-` (as `parseAmount` produces): an optional leading minus, integer
digits, an optional fraction; `none` models NaN (no digit parsed). -/
def parseFloatQ (l : List Char) : Option ℚ :=
  let negAndRest : Bool × List Char :=
    match l with
    | '-' :: r => (true, r)
    | _ => (false, l)
  let ds := negAndRest.2.takeWhile Char.isDigit
  let rest := negAndRest.2.dropWhile Char.isDigit
  let fs : List Char :=
    match rest with
    | '.' :: r => r.takeWhile Char.isDigit
    | _ => []
  if ds.isEmpty ∧ fs.isEmpty then none
  else
    let v := digitsVal ds + fracVal fs
    some (if negAndRest.1 then -v else v)

/-- Models `DataParser.parseAmount`: numbers pass through; strings are
stripped of everything but digits, `.`, `-` and parsed, with NaN
becoming 0. -/
def parseAmount : Option CellValue → ℚ
  | some (.num q) => q
  | some (.str s) =>
      (parseFloatQ (s.data.filter (fun c => c.isDigit || c = '.' || c = '-'))).getD 0
  | none => 0

/-- Full month names used by `parseMonth`. -/
def monthNamesFull : List String :=
  ["january", "february", "march", "april", "may", "june",
   "july", "august", "september", "october", "november", "december"]

/-- Models `DataParser.parseMonth`: a number passes through; for a string,
the first full month name having the lower-cased input as a prefix gives
its 1-based index; otherwise null (`none`). -/
def parseMonth : CellValue → Option ℚ
  | .num q => some q
  | .str s =>
      let normalized := String.mk (s.data.map jsToLowerChar)
      match monthNamesFull.findIdx? (fun m => normalized.data.isPrefixOf m.data) with
      | some i => some ((i : ℚ) + 1)
      | none => none

/-- Models `String(value)` for a cell value (numbers via `toString`; the
exact numeric rendering is irrelevant here because the date-string
parser is abstracted). -/
def cellToString : CellValue → String
  | .str s => s
  | .num q => toString q

/-- Truncation toward zero, modelling the `ToInteger` coercion JavaScript
applies to `Date` constructor arguments. -/
def jsToInt (q : ℚ) : Int :=
  if 0 ≤ q then ⌊q⌋ else ⌈q⌉

/-- Models `new Date(year, monthIndex, 1)` including the normalization of
out-of-range month indices into the year. -/
def jsMakeDate (y : Int) (mi : Int) : JSDate :=
  { year := y + Int.ediv mi 12, month := (Int.emod mi 12).toNat, day := 1 }

/-- Models `DataParser.parseDate(dateValue, monthValue)`.  The date-string
parser of `dateUtils.ts` delegates to the date-fns library, so it is
abstracted as the parameter `pdate` (theorems hold for every instance);
`now` abstracts `new Date()` and `currentYear` abstracts
`new Date().getFullYear()`.  A truthy date value that parses wins; else
a truthy month value with nonzero parse result gives the first of that
month in the current year; else the current date. -/
def dpParseDate (pdate : String → Option JSDate) (now : JSDate) (currentYear : Int)
    (dateValue monthValue : Option CellValue) : JSDate :=
  let viaDate : Option JSDate :=
    match dateValue with
    | some v => if v.truthy then pdate (cellToString v) else none
    | none => none
  match viaDate with
  | some d => d
  | none =>
      let viaMonth : Option JSDate :=
        match monthValue with
        | some v =>
            if v.truthy then
              match parseMonth v with
              | some m => if m ≠ 0 then some (jsMakeDate currentYear (jsToInt (m - 1))) else none
              | none => none
            else none
        | none => none
      match viaMonth with
      | some d => d
      | none => now

/-- Full month names capitalized, for the `'MMMM yyyy'` format. -/
def monthNamesCap : List String :=
  ["January", "February", "March", "April", "May", "June",
   "July", "August", "September", "October", "November", "December"]

/-- Models `format(date, 'MMMM yyyy')`. -/
def formatMonthYear (d : JSDate) : String :=
  monthNamesCap.getD d.month "" ++ " " ++ toString d.year

/-- Models `DataParser.extractMonth`. -/
def extractMonth (pdate : String → Option JSDate) (now : JSDate) (currentYear : Int)
    (dateValue monthValue : Option CellValue) : String :=
  formatMonthYear (dpParseDate pdate now currentYear dateValue monthValue)

/-- Models `DataParser.extractYear` (note: the source calls `parseDate`
without the month value here). -/
def extractYear (pdate : String → Option JSDate) (now : JSDate) (currentYear : Int)
    (dateValue : Option CellValue) : Int :=
  (dpParseDate pdate now currentYear dateValue none).year

/-- Models `String(x).trim()` on a cell value. -/
def cellTrim (v : CellValue) : String :=
  jsTrim (cellToString v)

/-- Modelled from the spec: `generateId` from `utils/helpers` is not in
the sources; the spec only requires freshly generated unique
identifiers, modelled as counter-indexed names. -/
def generateId (n : Nat) : String :=
  "id-" ++ toString n

/-- Models the body of the `rawData.map` callback in
`DataParser.processRawData`: build one `Donation` from a raw row or
reject it (`null`). -/
def processRow (pdate : String → Option JSDate) (now : JSDate) (currentYear : Int)
    (rowId : String) (row : RawRow) : Option Donation :=
  let mapped := mapFields row
  if (¬ (truthyOpt mapped.firstName) ∧ ¬ (truthyOpt mapped.lastName)) ∨
     ¬ (truthyOpt mapped.amount) ∨ mapped.amount = some (.num 0) then
    none
  else
    let firstName0 : CellValue :=
      match mapped.firstName with
      | some v => if v.truthy then v else .str ""
      | none => .str ""
    let lastName0 : CellValue :=
      match mapped.lastName with
      | some v => if v.truthy then v else .str ""
      | none => .str ""
    let split : CellValue × CellValue :=
      if ¬ firstName0.truthy ∧ ¬ lastName0.truthy ∧ truthyOpt mapped.name then
        match mapped.name with
        | some nv =>
            let parts := (cellTrim nv).splitOn " "
            (.str (parts.headD ""), .str (String.intercalate " " (parts.drop 1)))
        | none => (firstName0, lastName0)
      else (firstName0, lastName0)
    if ¬ split.1.truthy ∧ ¬ split.2.truthy then none
    else
      some
        { id := rowId
          firstName := cellTrim split.1
          lastName := cellTrim split.2
          amount := parseAmount mapped.amount
          date := dpParseDate pdate now currentYear mapped.date mapped.month
          month := extractMonth pdate now currentYear mapped.date mapped.month
          year := extractYear pdate now currentYear mapped.date
          email := match mapped.email with
                   | some v => if v.truthy then some (cellTrim v) else none
                   | none => none
          phone := match mapped.phone with
                   | some v => if v.truthy then some (cellTrim v) else none
                   | none => none
          donorId := "" }

/-- Models `DataParser.processRawData`: map every row through the builder,
then keep the non-null donations that still have a name, a positive
amount, and a date (a `Date` object is always truthy, so the last
conjunct of the source's filter never rejects). -/
def processRawData (pdate : String → Option JSDate) (now : JSDate) (currentYear : Int)
    (rows : List RawRow) : List Donation :=
  (rows.enum.map (fun iv => processRow pdate now currentYear (generateId iv.1) iv.2)).filterMap
    (fun od =>
      match od with
      | some d => if (d.firstName ≠ "" ∨ d.lastName ≠ "") ∧ 0 < d.amount then some d else none
      | none => none)

/-- Models `DataParser.calculateDonationFrequency`: 1 is one-time, up to 3
occasional, up to 6 regular, more frequent. -/
def calculateDonationFrequency (count : Nat) : Frequency :=
  if count = 1 then .oneTime
  else if count ≤ 3 then .occasional
  else if count ≤ 6 then .regular
  else .frequent

/-- Grouping key of a donation:
`lowercase(firstName) + "_" + lowercase(lastName)`. -/
def donorKey (d : Donation) : String :=
  String.mk (d.firstName.data.map jsToLowerChar) ++ "_" ++
    String.mk (d.lastName.data.map jsToLowerChar)

/-- Fresh `DonorData` seeded from the first donation of a new key, as the
`donorMap.set` branch of `groupByDonor` creates it. -/
def seedDonor (donorId : String) (d : Donation) : DonorData :=
  { id := donorId, firstName := d.firstName, lastName := d.lastName,
    email := d.email, phone := d.phone, donations := [], totalAmount := 0,
    donationCount := 0, averageDonation := 0, firstDonation := d.date,
    lastDonation := d.date, donationFrequency := .oneTime }

/-- Mutation applied to the (existing or just-seeded) donor for each
donation: back-assign `donorId`, push, add to the running total, bump
the count, and extend the `[firstDonation, lastDonation]` bounds. -/
def addDonation (donor : DonorData) (d : Donation) : DonorData :=
  { donor with
    donations := donor.donations ++ [{ d with donorId := donor.id }]
    totalAmount := donor.totalAmount + d.amount
    donationCount := donor.donationCount + 1
    firstDonation := if (d.date.ltB donor.firstDonation) then d.date else donor.firstDonation
    lastDonation := if (donor.lastDonation.ltB d.date) then d.date else donor.lastDonation }

/-- One iteration of the `donations.forEach` loop of `groupByDonor`,
carried over the insertion-ordered donor map plus the id counter that
models `generateId`. -/
def groupStep (st : List (String × DonorData) × Nat) (d : Donation) :
    List (String × DonorData) × Nat :=
  let key := donorKey d
  let seeded : List (String × DonorData) × Nat :=
    if (alookup st.1 key).isSome then st
    else (st.1 ++ [(key, seedDonor (generateId st.2) d)], st.2 + 1)
  (aupdate seeded.1 key (fun donor => addDonation donor d), seeded.2)

/-- Derived-field pass of `groupByDonor`: average and frequency
classification. -/
def finalizeDonor (donor : DonorData) : DonorData :=
  { donor with
    averageDonation := donor.totalAmount / donor.donationCount
    donationFrequency := calculateDonationFrequency donor.donationCount }

/-- Models `DataParser.groupByDonor`: fold the donations into the keyed
donor map, then compute the derived fields and return the donors in
key-insertion order. -/
def groupByDonor (donations : List Donation) : List DonorData :=
  ((donations.foldl groupStep ([], 0)).1).map (fun kv => finalizeDonor kv.2)

/-- Abbreviated month names as used by the `'MMM yyyy'` format and
`getMonthNumber`. -/
def monthAbbrevs : List String :=
  ["Jan", "Feb", "Mar", "Apr", "May", "Jun", "Jul", "Aug", "Sep", "Oct", "Nov", "Dec"]

/-- Models `DonorAnalytics.getMonthNumber`: `months.indexOf(name) + 1`,
with a missing name giving `-1 + 1 = 0`. -/
def getMonthNumber (name : String) : Int :=
  match monthAbbrevs.findIdx? (fun m => m == name) with
  | some i => (i : Int) + 1
  | none => 0

/-- Models `format(new Date(year, month-1, 1), 'MMM yyyy')` for the
1-based month `m1` recovered from a bucket key. -/
def monthLabel (y : Int) (m1 : Nat) : String :=
  monthAbbrevs.getD (m1 - 1) "" ++ " " ++ toString y

/-- Models `s.split(' ')[0]`: the prefix before the first space. -/
def jsSplitFirst (s : String) : String :=
  String.mk (s.data.takeWhile (fun c => c ≠ ' '))

/-- Bucket key of a donation: the `` `${year}-${month+1}` `` month key of
`calculateMonthlyTrends`, modelled as the pair it encodes (the source
immediately parses the string back into this pair). -/
def bucketKey (d : Donation) : Int × Nat :=
  (d.date.year, d.date.month + 1)

/-- Accumulated state of one month bucket: summed amount and the set of
donor identifiers, as an insertion-ordered duplicate-free list. -/
structure MonthBucket where
  amount : ℚ
  donors : List String
deriving DecidableEq, Repr

/-- All `(donor.id, donation)` pairs in the nested iteration order of
`calculateMonthlyTrends`. -/
def donationPairs (donors : List DonorData) : List (String × Donation) :=
  donors.flatMap (fun donor => donor.donations.map (fun dn => (donor.id, dn)))

/-- One iteration of the bucket-building loop: create the month's bucket
if absent, then add the amount and the donor id. -/
def bucketStep (m : List ((Int × Nat) × MonthBucket)) (p : String × Donation) :
    List ((Int × Nat) × MonthBucket) :=
  let key := bucketKey p.2
  let m1 := if (alookup m key).isSome then m else m ++ [(key, ⟨0, []⟩)]
  aupdate m1 key (fun b => ⟨b.amount + p.2.amount, addToSet b.donors p.1⟩)

/-- The monthly bucket map of `calculateMonthlyTrends`, in key-insertion
order as a JavaScript `Map` iterates. -/
def monthlyBuckets (donors : List DonorData) : List ((Int × Nat) × MonthBucket) :=
  (donationPairs donors).foldl bucketStep []

/-- MonthlyTrend entry produced from one bucket. -/
def bucketToTrend (kb : (Int × Nat) × MonthBucket) : MonthlyTrend :=
  { month := monthLabel kb.1.1 kb.1.2, year := kb.1.1, amount := kb.2.amount,
    donorCount := kb.2.donors.length,
    averageDonation := kb.2.amount / (kb.2.donors.length : ℚ) }

/-- The sort comparator of `calculateMonthlyTrends` as a relation:
`(a.year - b.year) || (monthNum a - monthNum b)` is nonpositive. -/
def trendLe (a b : MonthlyTrend) : Prop :=
  a.year < b.year ∨
    (a.year = b.year ∧
      getMonthNumber (jsSplitFirst a.month) ≤ getMonthNumber (jsSplitFirst b.month))

instance : DecidableRel trendLe := fun a b => by
  unfold trendLe; infer_instance

instance : IsTotal MonthlyTrend trendLe :=
  ⟨fun a b => by unfold trendLe; omega⟩

instance : IsTrans MonthlyTrend trendLe :=
  ⟨fun a b c hab hbc => by unfold trendLe at *; omega⟩

/-- Models `DonorAnalytics.calculateMonthlyTrends`: bucket all donations
by calendar month, map buckets to `MonthlyTrend` entries, and sort by
year then recovered calendar month number. -/
def calculateMonthlyTrends (donors : List DonorData) : List MonthlyTrend :=
  ((monthlyBuckets donors).map bucketToTrend).insertionSort trendLe

/-- Models `subMonths(firstOfMonth, 1)` on a `(year, 0-based month)`
pair. -/
def subMonth (ym : Int × Nat) : Int × Nat :=
  if ym.2 = 0 then (ym.1 - 1, 11) else (ym.1, ym.2 - 1)

/-- Set of donor identifiers with at least one donation in the given
`(year, 0-based month)`, as the per-month `Set` loops of
`calculateRetention` accumulate it. -/
def monthDonorSet (donors : List DonorData) (ym : Int × Nat) : Finset String :=
  ((donors.filter (fun d =>
      d.donations.any (fun dn => dn.date.year = ym.1 ∧ dn.date.month = ym.2))).map
    (fun d => d.id)).toFinset

/-- Most recent date of a list by epoch order, modelling
`new Date(Math.max(...dates))` (the caller guards the empty case). -/
def mostRecentDate (l : List JSDate) : JSDate :=
  l.foldl (fun acc d => if acc.ltB d then d else acc) (l.headD ⟨0, 0, 0⟩)

/-- Count of donors classified `frequent` or `regular` (the source's
`frequentDonors`). -/
def countFrequentRegular (donors : List DonorData) : Nat :=
  (donors.filter (fun d =>
    d.donationFrequency = .frequent ∨ d.donationFrequency = .regular)).length

/-- Count of donors classified `occasional`. -/
def countOccasional (donors : List DonorData) : Nat :=
  (donors.filter (fun d => d.donationFrequency = .occasional)).length

/-- Count of donors classified `one-time`. -/
def countOneTime (donors : List DonorData) : Nat :=
  (donors.filter (fun d => d.donationFrequency = .oneTime)).length

/-- Models `DonorAnalytics.calculateRetention`: zeros when there are no
donations; otherwise month-over-month cohort counts, replaced by the
frequency-based heuristic when either month's donor set is empty. -/
def calculateRetention (donors : List DonorData) : RetentionData :=
  let allDates := (donors.flatMap (fun d => d.donations)).map (fun dn => dn.date)
  if allDates.isEmpty then ⟨0, 0, 0, 0⟩
  else
    let recent := mostRecentDate allDates
    let currentMonth : Int × Nat := (recent.year, recent.month)
    let lastMonth := subMonth currentMonth
    let currentSet := monthDonorSet donors currentMonth
    let lastSet := monthDonorSet donors lastMonth
    let returning0 := (currentSet ∩ lastSet).card
    let new0 := currentSet.card - returning0
    let rate0 : ℚ := if 0 < lastSet.card then (returning0 : ℚ) / (lastSet.card : ℚ) else 0
    if lastSet.card = 0 ∨ currentSet.card = 0 then
      let returning := countFrequentRegular donors + countOccasional donors
      let rate : ℚ :=
        if 0 < donors.length then (returning : ℚ) / (donors.length : ℚ) else 0
      ⟨countOneTime donors, returning, rate, 1 - rate⟩
    else ⟨new0, returning0, rate0, 1 - rate0⟩

/-- Result record of `calculateLinearRegression`; all fields `JSNum`
because a zero total sum of squares makes `rSquared` NaN. -/
structure Regression where
  slope : JSNum
  intercept : JSNum
  rSquared : JSNum
deriving DecidableEq, Repr

/-- Prediction function of the regression: `slope * x + intercept`. -/
def Regression.predict (r : Regression) (x : ℚ) : JSNum :=
  jsAdd (jsMul r.slope (.num x)) r.intercept

/-- Index-weighted sum `Σ i * values[i]`, the source's `sumXY`. -/
def sumXY (values : List ℚ) : ℚ :=
  (values.enum.map (fun iv => (iv.1 : ℚ) * iv.2)).sum

/-- Sum `Σ (values[i] - predicted i)^2`, the source's `ssRes`, carried in
`JSNum` because slope and intercept may be non-finite. -/
def ssRes (values : List ℚ) (slope intercept : JSNum) : JSNum :=
  (values.enum.map (fun iv =>
    let p := jsAdd (jsMul slope (.num (iv.1 : ℚ))) intercept
    jsMul (jsSub (.num iv.2) p) (jsSub (.num iv.2) p))).foldl jsAdd (.num 0)

/-- Models `DonorAnalytics.calculateLinearRegression` over the window of
monthly amounts. -/
def calculateLinearRegression (values : List ℚ) : Regression :=
  let n : ℚ := values.length
  let sX : ℚ := ((List.range values.length).map (fun i => (i : ℚ))).sum
  let sY : ℚ := values.sum
  let sXY : ℚ := sumXY values
  let sXX : ℚ := ((List.range values.length).map (fun i => (i : ℚ) * (i : ℚ))).sum
  let slope := jsDivQ (n * sXY - sX * sY) (n * sXX - sX * sX)
  let intercept := jsDiv (jsSub (.num sY) (jsMul slope (.num sX))) (.num n)
  let res := ssRes values slope intercept
  let tot : ℚ := (values.map (fun v => (v - sY / n) * (v - sY / n))).sum
  { slope := slope, intercept := intercept, rSquared := jsSub (.num 1) (jsDiv res (.num tot)) }

/-- Models `DonorAnalytics.generateForecast`: a flat zero-confidence
forecast under 3 months of history, otherwise a least-squares fit of the
last up-to-6 monthly amounts with R²-based confidence clamped through
`Math.max(0, Math.min(1, ·))` and a slope-threshold direction. -/
def generateForecast (monthlyTrends : List MonthlyTrend) : ForecastData :=
  if monthlyTrends.length < 3 then
    { nextMonth := ⟨.num 0, .num 0⟩, nextQuarter := ⟨.num 0, .num 0⟩,
      trendDirection := .stable }
  else
    let amounts := monthlyTrends.map (fun t => t.amount)
    let recentTrends := amounts.drop (amounts.length - 6)
    let regression := calculateLinearRegression recentTrends
    let n : ℚ := recentTrends.length
    let nextMonthPrediction := regression.predict n
    let nextQuarterPrediction :=
      jsDiv (jsAdd (jsAdd (regression.predict (n + 1)) (regression.predict (n + 2)))
        (regression.predict (n + 3))) (.num 3)
    let confidence := jsMax (.num 0) (jsMin (.num 1) regression.rSquared)
    let trendDirection : Direction :=
      if jsLtB (.num (1/10)) regression.slope then .up
      else if jsLtB regression.slope (.num (-(1/10))) then .down
      else .stable
    { nextMonth := ⟨jsMax (.num 0) nextMonthPrediction, confidence⟩,
      nextQuarter := ⟨jsMax (.num 0) nextQuarterPrediction, confidence⟩,
      trendDirection := trendDirection }

/-- Sort relation for `topDonors`: the comparator
`(a, b) => b.totalAmount - a.totalAmount` is nonpositive, i.e. descending
by total amount. -/
def donorGe (a b : DonorData) : Prop :=
  b.totalAmount ≤ a.totalAmount

instance : DecidableRel donorGe := fun a b => by
  unfold donorGe; infer_instance

instance : IsTotal DonorData donorGe :=
  ⟨fun a b => le_total b.totalAmount a.totalAmount⟩

instance : IsTrans DonorData donorGe :=
  ⟨fun _ _ _ hab hbc => le_trans hbc hab⟩

/-- Models `DonorAnalytics.analyzeData`.  The source's in-place
`donors.sort` mutates the array before the trend and retention passes,
so those passes receive the sorted list here as well; `averageDonation`
is the unguarded division `totalAmount / donationCount`. -/
def analyzeData (donors : List DonorData) : AnalysisResult :=
  let totalDonors := donors.length
  let totalAmount := (donors.map (fun d => d.totalAmount)).sum
  let donationCount : Nat := (donors.map (fun d => d.donationCount)).sum
  let averageDonation := jsDivQ totalAmount (donationCount : ℚ)
  let sorted := donors.insertionSort donorGe
  let topDonors := sorted.take 10
  let monthlyTrends := calculateMonthlyTrends sorted
  let donorRetention := calculateRetention sorted
  let forecast := generateForecast monthlyTrends
  { totalDonors := totalDonors, totalAmount := totalAmount,
    averageDonation := averageDonation, donationCount := donationCount,
    topDonors := topDonors, monthlyTrends := monthlyTrends,
    donorRetention := donorRetention, forecast := forecast }

/-- Models the coefficient computed by `calculatePearsonCorrelation` in
`CorrelationAnalysis.tsx` (the display-only strength/direction/p-value
fields of its result record are not modelled).  Real-valued because the
source divides by `Math.sqrt`; the `n = 0` early return and the
denominator-zero fallback both give 0.  The source reads `y[i]` for
`i < x.length`, which the claims' equal-length hypothesis makes the same
as the zip used here. -/
noncomputable def calculatePearsonCorrelation (x y : List ℝ) : ℝ :=
  if x.length = 0 then 0
  else
    let n : ℝ := x.length
    let sumX := x.sum
    let sumY := y.sum
    let sXY := (List.zipWith (fun a b => a * b) x y).sum
    let sumX2 := (x.map (fun a => a * a)).sum
    let sumY2 := (y.map (fun a => a * a)).sum
    let numerator := n * sXY - sumX * sumY
    let denominator := Real.sqrt ((n * sumX2 - sumX * sumX) * (n * sumY2 - sumY * sumY))
    if denominator = 0 then 0 else numerator / denominator

section AssocLemmas

variable {κ α : Type} [DecidableEq κ]

/-- Looking up an absent key gives `none`. -/
theorem alookup_none {m : List (κ × α)} {k : κ} :
    alookup m k = none ↔ k ∉ m.map Prod.fst := by
  induction m with
  | nil => simp [alookup]
  | cons hd tl ih =>
      obtain ⟨k1, v1⟩ := hd
      by_cases hk : k1 = k
      · simp [alookup, hk]
      · simp [alookup, hk, ih, Ne.symm hk]

/-- Updating a key does not change the key list. -/
theorem aupdate_keys {m : List (κ × α)} {k : κ} {f : α → α} :
    (aupdate m k f).map Prod.fst = m.map Prod.fst := by
  induction m with
  | nil => simp [aupdate]
  | cons hd tl ih =>
      obtain ⟨k1, v1⟩ := hd
      by_cases hk : k1 = k
      · simp [aupdate, hk]
      · simp [aupdate, hk, ih]

/-- With duplicate-free keys, every entry of an updated association list
is either an untouched entry with a different key, or the image of the
unique entry at the updated key. -/
theorem mem_aupdate_of_nodup {m : List (κ × α)} {k : κ} {f : α → α} {kv : κ × α}
    (hnd : (m.map Prod.fst).Nodup) (h : kv ∈ aupdate m k f) :
    (kv ∈ m ∧ kv.1 ≠ k) ∨ ∃ v, (k, v) ∈ m ∧ kv = (k, f v) := by
  induction m with
  | nil => simp [aupdate] at h
  | cons hd tl ih =>
      obtain ⟨k1, v1⟩ := hd
      rw [aupdate] at h
      by_cases hk : k1 = k
      · rw [if_pos hk] at h
        rcases List.mem_cons.mp h with h | h
        · right
          exact ⟨v1, by simp [hk], by simp [h, hk]⟩
        · left
          have hk1 : k1 ∉ tl.map Prod.fst := by
            have := (List.nodup_cons.mp (by simpa using hnd : (k1 :: tl.map Prod.fst).Nodup)).1
            simpa using this
          refine ⟨List.mem_cons_of_mem _ h, fun hkv => ?_⟩
          exact hk1 (by simpa [hk, hkv] using List.mem_map_of_mem Prod.fst h)
      · rw [if_neg hk] at h
        rcases List.mem_cons.mp h with h | h
        · left
          refine ⟨by simp [h], ?_⟩
          simpa [h] using hk
        · rcases ih (List.nodup_cons.mp (by simpa using hnd : (k1 :: tl.map Prod.fst).Nodup)).2 h with
            ⟨h1, h2⟩ | ⟨v, hv, hkv⟩
          · exact Or.inl ⟨List.mem_cons_of_mem _ h1, h2⟩
          · exact Or.inr ⟨v, List.mem_cons_of_mem _ hv, hkv⟩

/-- With duplicate-free keys, membership determines the lookup result. -/
theorem alookup_of_mem_nodup {m : List (κ × α)} {k : κ} {v : α}
    (hnd : (m.map Prod.fst).Nodup) (h : (k, v) ∈ m) : alookup m k = some v := by
  induction m with
  | nil => simp at h
  | cons hd tl ih =>
      obtain ⟨k1, v1⟩ := hd
      have hnd2 : k1 ∉ tl.map Prod.fst ∧ (tl.map Prod.fst).Nodup := by
        simpa [List.nodup_cons] using hnd
      rcases List.mem_cons.mp h with h | h
      · rw [alookup, if_pos (by simp at h; exact h.1.symm)]
        simp at h
        simp [h.2]
      · have hk : k1 ≠ k := by
          rintro rfl
          exact hnd2.1 (by simpa using List.mem_map_of_mem Prod.fst h)
        rw [alookup, if_neg hk]
        exact ih hnd2.2 h

end AssocLemmas

/-- Per-entry invariant of the donor map maintained by `groupStep`:
running total and count agree with the owned donations, the date bounds
are ordered, and the contact fields are those of the first owned
donation. -/
def DonorInv (donor : DonorData) : Prop :=
  donor.totalAmount = (donor.donations.map (fun d => d.amount)).sum ∧
  donor.donationCount = donor.donations.length ∧
  donor.donations ≠ [] ∧
  donor.firstDonation.le donor.lastDonation ∧
  ∀ h, donor.donations.head? = some h → donor.email = h.email ∧ donor.phone = h.phone

/-- Adding a donation preserves the invariant. -/
theorem donorInv_addDonation {donor : DonorData} (hinv : DonorInv donor) (d : Donation) :
    DonorInv (addDonation donor d) := by
  obtain ⟨ht, hc, hne, hle, hhd⟩ := hinv
  refine ⟨?_, ?_, by simp [addDonation], ?_, ?_⟩
  · simp [addDonation, ht]
  · simp [addDonation, hc]
  · simp only [addDonation, JSDate.le, JSDate.ltB] at *
    split_ifs with h1 h2 h2 <;> simp_all
  · intro h hh
    obtain ⟨d0, rest, hrest⟩ := List.exists_cons_of_ne_nil hne
    simp only [addDonation, hrest, List.cons_append, List.head?_cons,
      Option.some.injEq] at hh
    subst hh
    exact hhd _ (by simp [hrest])

/-- A freshly seeded donor satisfies the invariant after its first
donation is added. -/
theorem donorInv_seed (donorId : String) (d : Donation) :
    DonorInv (addDonation (seedDonor donorId d) d) := by
  refine ⟨?_, ?_, by simp [addDonation, seedDonor], ?_, ?_⟩
  · simp [addDonation, seedDonor]
  · simp [addDonation, seedDonor]
  · simp only [addDonation, seedDonor, JSDate.le, JSDate.ltB]
    split_ifs <;> omega
  · intro h hh
    simp only [addDonation, seedDonor, List.nil_append, List.head?_cons,
      Option.some.injEq] at hh
    subst hh
    simp [addDonation, seedDonor]

/-- Invariant of the whole fold state: duplicate-free keys and the
per-donor invariant. -/
def GroupInv (st : List (String × DonorData) × Nat) : Prop :=
  ((st.1.map Prod.fst).Nodup) ∧ ∀ kv ∈ st.1, DonorInv kv.2

/-- One `groupStep` preserves the fold invariant. -/
theorem groupInv_step {st : List (String × DonorData) × Nat} (hinv : GroupInv st)
    (d : Donation) : GroupInv (groupStep st d) := by
  obtain ⟨hnd, hmem⟩ := hinv
  by_cases hk : (alookup st.1 (donorKey d)).isSome
  · have hkeys : ((groupStep st d).1.map Prod.fst).Nodup := by
      simpa [groupStep, hk, aupdate_keys] using hnd
    refine ⟨hkeys, fun kv hkv => ?_⟩
    simp only [groupStep, hk, if_true] at hkv
    rcases mem_aupdate_of_nodup hnd hkv with ⟨h1, _⟩ | ⟨v, hv, hkv2⟩
    · exact hmem _ h1
    · rw [hkv2]
      exact donorInv_addDonation (hmem _ hv) d
  · have hnotin : donorKey d ∉ st.1.map Prod.fst :=
      alookup_none.mp (Option.not_isSome_iff_eq_none.mp hk)
    have hnd1 : (((st.1 ++ [(donorKey d, seedDonor (generateId st.2) d)]).map
        Prod.fst).Nodup) := by
      simpa using List.Nodup.append hnd (by simp) (by simpa using hnotin)
    have hkeys : ((groupStep st d).1.map Prod.fst).Nodup := by
      simpa [groupStep, hk, aupdate_keys] using hnd1
    refine ⟨hkeys, fun kv hkv => ?_⟩
    simp only [groupStep, hk, if_false] at hkv
    rcases mem_aupdate_of_nodup hnd1 hkv with ⟨h1, hne⟩ | ⟨v, hv, hkv2⟩
    · rcases List.mem_append.mp h1 with h2 | h2
      · exact hmem _ h2
      · have h3 : kv = (donorKey d, seedDonor (generateId st.2) d) := by simpa using h2
        exact absurd (by rw [h3]) hne
    · rcases List.mem_append.mp hv with h2 | h2
      · rw [hkv2]
        exact donorInv_addDonation (hmem _ h2) d
      · have hv2 : v = seedDonor (generateId st.2) d := by simpa using h2
        rw [hkv2, hv2]
        exact donorInv_seed _ d

/-- Folding any donation list onto an invariant-satisfying state keeps
the invariant. -/
theorem groupInv_foldl (l : List Donation) :
    ∀ st, GroupInv st → GroupInv (l.foldl groupStep st) := by
  induction l with
  | nil => exact fun st h => h
  | cons d rest ih => exact fun st h => by simpa using ih _ (groupInv_step h d)

/-- Every donor returned by `groupByDonor` is the finalization of a map
entry satisfying the fold invariant. -/
theorem groupByDonor_mem {donations : List Donation} {donor : DonorData}
    (h : donor ∈ groupByDonor donations) :
    ∃ d0, DonorInv d0 ∧ donor = finalizeDonor d0 := by
  have hfold : GroupInv (donations.foldl groupStep ([], 0)) :=
    groupInv_foldl donations ([], 0) ⟨by simp, by simp⟩
  unfold groupByDonor at h
  obtain ⟨kv, hkv, heq⟩ := List.mem_map.mp h
  exact ⟨kv.2, hfold.2 kv hkv, heq.symm⟩

/-- C1: every donor produced by `groupByDonor` from a sequence of
accepted donations has `totalAmount` equal to the sum of its owned
donations' amounts, `donationCount` equal to the length of its donations
list, `averageDonation` equal to `totalAmount / donationCount`,
`firstDonation <= lastDonation`, and a `donationFrequency` that is the
pure threshold function of `donationCount` (1 one-time, up to 3
occasional, up to 6 regular, 7 or more frequent). -/
theorem groupByDonor_invariants (donations : List Donation) (donor : DonorData)
    (h : donor ∈ groupByDonor donations) :
    donor.totalAmount = (donor.donations.map (fun d => d.amount)).sum ∧
    donor.donationCount = donor.donations.length ∧
    donor.averageDonation = donor.totalAmount / (donor.donationCount : ℚ) ∧
    donor.firstDonation.le donor.lastDonation ∧
    donor.donationFrequency =
      (if donor.donationCount = 1 then Frequency.oneTime
       else if donor.donationCount ≤ 3 then Frequency.occasional
       else if donor.donationCount ≤ 6 then Frequency.regular
       else Frequency.frequent) := by
  obtain ⟨d0, ⟨ht, hc, _, hle, _⟩, heq⟩ := groupByDonor_mem h
  subst heq
  refine ⟨by simpa [finalizeDonor] using ht, by simpa [finalizeDonor] using hc, ?_, ?_, ?_⟩
  · simp [finalizeDonor]
  · simpa [finalizeDonor] using hle
  · simp [finalizeDonor, calculateDonationFrequency]

/-- C9 (amended): the optional contact fields of a grouped donor are
those of its first owned donation, whether or not that donation carries
them; a later donation's email or phone is never adopted. -/
theorem groupByDonor_contact_from_first (donations : List Donation) (donor : DonorData)
    (h : donor ∈ groupByDonor donations) (hd : Donation)
    (hh : donor.donations.head? = some hd) :
    donor.email = hd.email ∧ donor.phone = hd.phone := by
  obtain ⟨d0, ⟨_, _, _, _, hhd⟩, heq⟩ := groupByDonor_mem h
  subst heq
  exact hhd hd (by simpa [finalizeDonor] using hh)

/-- Concrete accepted donation used as grouping fixture. -/
def w1Donation : Donation :=
  { id := "d0", firstName := "John", lastName := "Smith", amount := 17,
    date := ⟨2024, 0, 5⟩, month := "January 2024", year := 2024,
    email := none, phone := none, donorId := "" }

/-- The donor that grouping the fixture produces. -/
def w1Donor : DonorData :=
  { id := "id-0", firstName := "John", lastName := "Smith", email := none,
    phone := none, donations := [{ w1Donation with donorId := "id-0" }],
    totalAmount := 17, donationCount := 1, averageDonation := 17,
    firstDonation := ⟨2024, 0, 5⟩, lastDonation := ⟨2024, 0, 5⟩,
    donationFrequency := .oneTime }

/-- C1 witness: the invariants hold for the donor grouped from a concrete
donation. -/
theorem groupByDonor_invariants_witness :
    w1Donor ∈ groupByDonor [w1Donation] ∧
    (w1Donor.totalAmount = (w1Donor.donations.map (fun d => d.amount)).sum ∧
     w1Donor.donationCount = w1Donor.donations.length ∧
     w1Donor.averageDonation = w1Donor.totalAmount / (w1Donor.donationCount : ℚ) ∧
     w1Donor.firstDonation.le w1Donor.lastDonation ∧
     w1Donor.donationFrequency =
       (if w1Donor.donationCount = 1 then Frequency.oneTime
        else if w1Donor.donationCount ≤ 3 then Frequency.occasional
        else if w1Donor.donationCount ≤ 6 then Frequency.regular
        else Frequency.frequent)) := by
  have hmem : w1Donor ∈ groupByDonor [w1Donation] := by
    simp [groupByDonor, groupStep, seedDonor, addDonation, finalizeDonor, alookup,
      aupdate, calculateDonationFrequency, w1Donation, w1Donor, generateId]
    decide
  exact ⟨hmem, groupByDonor_invariants [w1Donation] w1Donor hmem⟩

/-- First donation of the C9 counterexample donor: no email. -/
def c9Donation1 : Donation :=
  { id := "d0", firstName := "Ann", lastName := "Lee", amount := 10,
    date := ⟨2024, 0, 5⟩, month := "January 2024", year := 2024,
    email := none, phone := none, donorId := "" }

/-- Second donation of the same donor: carries a non-empty email. -/
def c9Donation2 : Donation :=
  { id := "d1", firstName := "Ann", lastName := "Lee", amount := 20,
    date := ⟨2024, 1, 5⟩, month := "February 2024", year := 2024,
    email := some "ann@example.org", phone := none, donorId := "" }

/-- C9 counterexample: the donor grouped from a first donation without an
email and a second donation carrying the non-empty email
`ann@example.org` ends up with no email at all — not with the email of
the earliest owned donation that carries one, as the claim states. -/
theorem c9_counterexample :
    (groupByDonor [c9Donation1, c9Donation2]).map (fun d => d.email) = [none] ∧
    c9Donation1.email = none ∧ c9Donation2.email = some "ann@example.org" := by
  refine ⟨?_, rfl, rfl⟩
  simp [groupByDonor, groupStep, seedDonor, addDonation, finalizeDonor, alookup,
    aupdate, c9Donation1, c9Donation2, donorKey]

/-- The donor grouped from the two C9 donations. -/
def c9Donor : DonorData :=
  { id := "id-0", firstName := "Ann", lastName := "Lee", email := none,
    phone := none,
    donations := [{ c9Donation1 with donorId := "id-0" },
                  { c9Donation2 with donorId := "id-0" }],
    totalAmount := 30, donationCount := 2, averageDonation := 15,
    firstDonation := ⟨2024, 0, 5⟩, lastDonation := ⟨2024, 1, 5⟩,
    donationFrequency := .occasional }

/-- C9 witness: the amended contact rule checked on the counterexample
input, whose grouped donor keeps the first donation's absent contact
fields. -/
theorem groupByDonor_contact_from_first_witness :
    c9Donor.email = ({ c9Donation1 with donorId := "id-0" } : Donation).email ∧
    c9Donor.phone = ({ c9Donation1 with donorId := "id-0" } : Donation).phone := by
  have heval : groupByDonor [c9Donation1, c9Donation2] = [c9Donor] := by
    norm_num [groupByDonor, groupStep, seedDonor, addDonation, finalizeDonor, alookup,
      aupdate, calculateDonationFrequency, c9Donation1, c9Donation2, c9Donor, generateId,
      donorKey, JSDate.ltB, JSDate.rank]
    decide
  have hmem : c9Donor ∈ groupByDonor [c9Donation1, c9Donation2] := by
    rw [heval]; exact List.mem_singleton.mpr rfl
  exact groupByDonor_contact_from_first [c9Donation1, c9Donation2] c9Donor hmem _ rfl

/-- All donation dates of a donor list, as `calculateRetention` collects
them. -/
def allDonationDates (donors : List DonorData) : List JSDate :=
  (donors.flatMap (fun d => d.donations)).map (fun dn => dn.date)

/-- C4 counterexample: on a donor list with no donations at all the
retention calculator early-returns `churnRate = 0` together with
`retentionRate = 0`, so `churnRate = 1 - retentionRate` fails there. -/
theorem retention_churn_counterexample :
    ¬ ((calculateRetention []).churnRate = 1 - (calculateRetention []).retentionRate) := by
  norm_num [calculateRetention]

/-- C4 (amended): for every donor list with at least one donation,
`churnRate = 1 - retentionRate`; on a list with no donations both rates
are 0 instead. -/
theorem retention_churn_complement (donors : List DonorData)
    (h : allDonationDates donors ≠ []) :
    (calculateRetention donors).churnRate =
      1 - (calculateRetention donors).retentionRate := by
  unfold calculateRetention
  rw [if_neg (by simpa [allDonationDates, List.isEmpty_iff] using h)]
  dsimp only
  split <;> rfl

/-- Donor fixture for the retention fallback: two donations two months
apart, so the month before the latest month has no donors. -/
def c3Donor : DonorData :=
  { id := "a", firstName := "Ann", lastName := "Lee", email := none, phone := none,
    donations :=
      [{ id := "d0", firstName := "Ann", lastName := "Lee", amount := 10,
         date := ⟨2024, 0, 5⟩, month := "January 2024", year := 2024,
         email := none, phone := none, donorId := "a" },
       { id := "d1", firstName := "Ann", lastName := "Lee", amount := 20,
         date := ⟨2024, 2, 5⟩, month := "March 2024", year := 2024,
         email := none, phone := none, donorId := "a" }],
    totalAmount := 30, donationCount := 2, averageDonation := 15,
    firstDonation := ⟨2024, 0, 5⟩, lastDonation := ⟨2024, 2, 5⟩,
    donationFrequency := .occasional }

/-- C4 witness: the complement law evaluated on a donor list with a
donation. -/
theorem retention_churn_complement_witness :
    (calculateRetention [c3Donor]).churnRate =
      1 - (calculateRetention [c3Donor]).retentionRate :=
  retention_churn_complement [c3Donor] (by decide)

/-- Counting donors that are frequent, regular, or occasional splits into
the source's two disjoint filters. -/
theorem count_freq_split (donors : List DonorData) :
    (donors.filter (fun d => d.donationFrequency = .frequent ∨
        d.donationFrequency = .regular ∨ d.donationFrequency = .occasional)).length =
      countFrequentRegular donors + countOccasional donors := by
  induction donors with
  | nil => rfl
  | cons d rest ih =>
      simp only [countFrequentRegular, countOccasional, Bool.decide_or] at ih ⊢
      cases hfreq : d.donationFrequency <;>
        simp [List.filter_cons, hfreq, ih] <;> omega

/-- C3 (amended): whenever the retention calculator enters its fallback
mode (some donation exists but the current or previous month's donor set
is empty), `returningDonors` is the count of donors classified frequent,
regular, **or occasional** (the source adds the occasional count too),
`newDonors` is the count classified one-time, and `retentionRate` is
`returningDonors / total donor count`. -/
theorem retention_fallback (donors : List DonorData)
    (h1 : allDonationDates donors ≠ [])
    (h2 : (monthDonorSet donors (subMonth ((mostRecentDate (allDonationDates donors)).year,
              (mostRecentDate (allDonationDates donors)).month))).card = 0 ∨
          (monthDonorSet donors ((mostRecentDate (allDonationDates donors)).year,
              (mostRecentDate (allDonationDates donors)).month)).card = 0) :
    (calculateRetention donors).returningDonors =
      (donors.filter (fun d => d.donationFrequency = .frequent ∨
          d.donationFrequency = .regular ∨ d.donationFrequency = .occasional)).length ∧
    (calculateRetention donors).newDonors = countOneTime donors ∧
    (calculateRetention donors).retentionRate =
      ((countFrequentRegular donors + countOccasional donors : ℕ) : ℚ) /
        (donors.length : ℚ) := by
  have hlen : 0 < donors.length := by
    rcases donors with _ | ⟨d, rest⟩
    · simp [allDonationDates] at h1
    · simp
  simp only [allDonationDates] at h2
  unfold calculateRetention
  rw [if_neg (by simpa [allDonationDates, List.isEmpty_iff] using h1)]
  dsimp only
  rw [if_pos h2]
  refine ⟨(count_freq_split donors).symm, rfl, ?_⟩
  show (if 0 < donors.length then _ else 0) = _
  rw [if_pos hlen]

/-- C3 counterexample: on a donor list that triggers the fallback and
contains exactly one occasional donor, the source returns
`returningDonors = 1` although the count of donors classified frequent
or regular — what the claim says `returningDonors` equals — is 0. -/
theorem retention_fallback_counterexample :
    (calculateRetention [c3Donor]).returningDonors = 1 ∧
      countFrequentRegular [c3Donor] = 0 := by
  decide

/-- C3 witness: the amended fallback rule evaluated on the concrete
fallback-triggering donor list. -/
theorem retention_fallback_witness :
    (calculateRetention [c3Donor]).returningDonors =
      (([c3Donor].filter (fun d => d.donationFrequency = .frequent ∨
          d.donationFrequency = .regular ∨ d.donationFrequency = .occasional)).length) ∧
    (calculateRetention [c3Donor]).newDonors = countOneTime [c3Donor] ∧
    (calculateRetention [c3Donor]).retentionRate =
      ((countFrequentRegular [c3Donor] + countOccasional [c3Donor] : ℕ) : ℚ) /
        (([c3Donor] : List DonorData).length : ℚ) :=
  retention_fallback [c3Donor] (by decide) (by decide)

/-- C6 counterexample: on an empty donor list `analyzeData` computes
`averageDonation = 0 / 0`, which is the NaN division-by-zero artifact —
there is no zero-fallback in this average. -/
theorem analyzeData_average_counterexample :
    (analyzeData []).averageDonation = JSNum.nan := by
  simp [analyzeData, jsDivQ, jsDiv]

/-- C6 (amended): `analyzeData` computes `averageDonation` by the
unguarded division `totalAmount / donationCount`: with a positive total
donation count it is the finite quotient, and on an empty donor list it
is NaN rather than any zero-fallback value. -/
theorem analyzeData_averageDonation (donors : List DonorData) :
    (0 < (donors.map (fun d => d.donationCount)).sum →
      (analyzeData donors).averageDonation =
        .num ((donors.map (fun d => d.totalAmount)).sum /
          (((donors.map (fun d => d.donationCount)).sum : ℕ) : ℚ))) ∧
    (donors = [] → (analyzeData donors).averageDonation = .nan) := by
  constructor
  · intro h
    have hne : (((donors.map (fun d => d.donationCount)).sum : ℕ) : ℚ) ≠ 0 := by
      exact_mod_cast Nat.pos_iff_ne_zero.mp h
    simp only [analyzeData, jsDivQ, jsDiv]
    rw [if_neg hne]
  · intro h
    subst h
    simp [analyzeData, jsDivQ, jsDiv]

/-- C6 witness: the finite-quotient branch evaluated on a one-donor
list. -/
theorem analyzeData_averageDonation_witness :
    (analyzeData [c3Donor]).averageDonation =
      .num (([c3Donor].map (fun d => d.totalAmount)).sum /
        ((([c3Donor].map (fun d => d.donationCount)).sum : ℕ) : ℚ)) :=
  (analyzeData_averageDonation [c3Donor]).1 (by decide)

/-- C5: on a three-month history whose fitted window is constant (total
sum of squares zero) the source computes `rSquared = 1 - 0/0 = NaN`, and
`Math.max(0, Math.min(1, NaN))` is still NaN, so both confidences are
NaN — not the 0 the claim states. -/
theorem forecast_constant_confidence_nan :
    (generateForecast
      [⟨"Jan 2024", 2024, 100, 1, 100⟩, ⟨"Feb 2024", 2024, 100, 1, 100⟩,
       ⟨"Mar 2024", 2024, 100, 1, 100⟩]).nextMonth.confidence = JSNum.nan ∧
    (generateForecast
      [⟨"Jan 2024", 2024, 100, 1, 100⟩, ⟨"Feb 2024", 2024, 100, 1, 100⟩,
       ⟨"Mar 2024", 2024, 100, 1, 100⟩]).nextQuarter.confidence = JSNum.nan := by
  norm_num [generateForecast, calculateLinearRegression, ssRes, sumXY, jsDivQ, jsDiv,
    jsSub, jsAdd, jsNeg, jsMul, jsMax, jsMin, List.enum, List.range, List.range.loop]

/-- C2: a mapped row with a name and a positive amount but no date and no
month information is **not** rejected: for every date parser, every
current date `now`, and every current year, the record builder accepts
it and stamps it with `now` (the `new Date()` fallback), where the claim
says such a row must be rejected. -/
theorem dateless_row_accepted (pdate : String → Option JSDate) (now : JSDate) (cy : Int) :
    (processRawData pdate now cy
      [[("first_name", .str "John"), ("last_name", .str "Smith"), ("amount", .num 50)]]).map
        (fun d => (d.firstName, d.date)) = [("John", now)] := by
  rfl

/-- Negating every entry negates the sum. -/
theorem rsum_map_neg (l : List ℝ) : (l.map (fun v => -v)).sum = -l.sum := by
  induction l with
  | nil => simp
  | cons h t ih => simp [ih]; ring

/-- Negating the second vector negates the zipped product sum. -/
theorem rsum_zip_neg (x : List ℝ) :
    ∀ y : List ℝ, (List.zipWith (fun a b => a * b) x (y.map (fun v => -v))).sum =
      -(List.zipWith (fun a b => a * b) x y).sum := by
  induction x with
  | nil => intro y; simp
  | cons h t ih =>
      intro y
      cases y with
      | nil => simp
      | cons h2 t2 => simp [ih t2]; ring

/-- Negating every entry leaves the sum of squares unchanged. -/
theorem rsum_sq_neg (y : List ℝ) :
    ((y.map (fun v => -v)).map (fun a => a * a)).sum = (y.map (fun a => a * a)).sum := by
  induction y with
  | nil => simp
  | cons h t ih =>
      simp only [List.map_cons, List.sum_cons]
      rw [ih]
      ring

/-- Sum of an affine image. -/
theorem rsum_map_affine (x : List ℝ) (a b : ℝ) :
    ((x.map (fun t => a * t + b)).sum) = a * x.sum + x.length * b := by
  induction x with
  | nil => simp
  | cons h t ih => simp [ih]; ring

/-- Zipping a list with its own image multiplies pointwise. -/
theorem rzip_self_map (x : List ℝ) (f : ℝ → ℝ) :
    List.zipWith (fun u v => u * v) x (x.map f) = x.map (fun t => t * f t) := by
  induction x with
  | nil => simp
  | cons h t ih => simp [ih]

/-- Product-with-affine-image sum. -/
theorem rsum_map_mul_affine (x : List ℝ) (a b : ℝ) :
    ((x.map (fun t => t * (a * t + b))).sum) =
      a * (x.map (fun t => t * t)).sum + b * x.sum := by
  induction x with
  | nil => simp
  | cons h t ih => simp [ih]; ring

/-- Sum of squares of an affine image. -/
theorem rsum_sq_affine (x : List ℝ) (a b : ℝ) :
    (((x.map (fun t => a * t + b)).map (fun u => u * u)).sum) =
      a * a * (x.map (fun t => t * t)).sum + 2 * a * b * x.sum +
        x.length * (b * b) := by
  induction x with
  | nil => simp
  | cons h t ih =>
      simp only [List.map_cons, List.sum_cons, List.length_cons]
      rw [ih]
      push_cast
      ring

/-- Sum of squared deviations from a constant. -/
theorem rsum_dev_sq (x : List ℝ) (m : ℝ) :
    ((x.map (fun t => (t - m) * (t - m))).sum) =
      (x.map (fun t => t * t)).sum - 2 * m * x.sum + x.length * (m * m) := by
  induction x with
  | nil => simp
  | cons h t ih => simp [ih]; ring

/-- A sum of nonnegative reals is zero only if every term is zero. -/
theorem rsum_zero_of_nonneg (l : List ℝ) (hnn : ∀ v ∈ l, 0 ≤ v) (h0 : l.sum = 0) :
    ∀ v ∈ l, v = 0 := by
  induction l with
  | nil => simp
  | cons h t ih =>
      have hh : 0 ≤ h := hnn h (by simp)
      have ht : 0 ≤ t.sum := List.sum_nonneg (fun v hv => hnn v (by simp [hv]))
      have hsum : h + t.sum = 0 := by simpa using h0
      have hh0 : h = 0 := le_antisymm (by linarith) hh
      have ht0 : t.sum = 0 := by linarith
      intro v hv
      rcases List.mem_cons.mp hv with rfl | hv
      · exact hh0
      · exact ih (fun w hw => hnn w (by simp [hw])) ht0 v hv

/-- Sum of a list all of whose entries equal a constant. -/
theorem rsum_of_constant (l : List ℝ) (c : ℝ) (h : ∀ v ∈ l, v = c) :
    l.sum = l.length * c := by
  induction l with
  | nil => simp
  | cons hd t ih =>
      have : hd = c := h hd (by simp)
      simp [this, ih (fun v hv => h v (by simp [hv]))]
      ring

/-- Strict discrete Cauchy-Schwarz: a list with two different entries has
positive centered sum of squares. -/
theorem sxx_pos (x : List ℝ) (u v : ℝ) (hu : u ∈ x) (hv : v ∈ x) (huv : u ≠ v) :
    0 < (x.length : ℝ) * (x.map (fun t => t * t)).sum - x.sum * x.sum := by
  have hne : x ≠ [] := by rintro rfl; simp at hu
  have hn : 0 < (x.length : ℝ) := by
    have h1 : 0 < x.length := List.length_pos.mpr hne
    exact_mod_cast h1
  set m : ℝ := x.sum / x.length with hm
  have hnm : (x.length : ℝ) * m = x.sum := by
    field_simp [hm]
  have hSnn : 0 ≤ ((x.map (fun t => (t - m) * (t - m))).sum) :=
    List.sum_nonneg (by
      intro w hw
      obtain ⟨t, _, rfl⟩ := List.mem_map.mp hw
      exact mul_self_nonneg _)
  have hSne : ((x.map (fun t => (t - m) * (t - m))).sum) ≠ 0 := by
    intro h0
    have hall := rsum_zero_of_nonneg _ (by
      intro w hw
      obtain ⟨t, _, rfl⟩ := List.mem_map.mp hw
      exact mul_self_nonneg _) h0
    have hu0 : (u - m) * (u - m) = 0 :=
      hall _ (List.mem_map.mpr ⟨u, hu, rfl⟩)
    have hv0 : (v - m) * (v - m) = 0 :=
      hall _ (List.mem_map.mpr ⟨v, hv, rfl⟩)
    have hum : u = m := by nlinarith [sq_nonneg (u - m)]
    have hvm : v = m := by nlinarith [sq_nonneg (v - m)]
    exact huv (hum.trans hvm.symm)
  have hSpos : 0 < ((x.map (fun t => (t - m) * (t - m))).sum) :=
    lt_of_le_of_ne hSnn (Ne.symm hSne)
  have hkey : (x.length : ℝ) * (x.map (fun t => t * t)).sum - x.sum * x.sum =
      (x.length : ℝ) * ((x.map (fun t => (t - m) * (t - m))).sum) := by
    rw [rsum_dev_sq]
    linear_combination (x.sum - (x.length : ℝ) * m) * hnm
  rw [hkey]
  exact mul_pos hn hSpos

/-- Negating one input vector negates the Pearson coefficient. -/
theorem pearson_neg (x y : List ℝ) :
    calculatePearsonCorrelation x (y.map (fun v => -v)) =
      -calculatePearsonCorrelation x y := by
  unfold calculatePearsonCorrelation
  by_cases h0 : x.length = 0
  · simp [h0]
  · rw [if_neg h0, if_neg h0]
    dsimp only
    rw [rsum_map_neg, rsum_zip_neg, rsum_sq_neg]
    generalize (x.length : ℝ) = n
    generalize x.sum = sX
    generalize y.sum = sY
    generalize (List.zipWith (fun a b => a * b) x y).sum = sXY
    generalize (x.map (fun a => a * a)).sum = A
    generalize (y.map (fun a => a * a)).sum = B
    have hden : n * B - -sY * -sY = n * B - sY * sY := by ring
    have hnum : n * sXY * -1 - sX * -sY = -(n * sXY - sX * sY) := by ring
    rw [hden]
    by_cases hd : Real.sqrt ((n * A - sX * sX) * (n * B - sY * sY)) = 0
    · rw [if_pos hd, if_pos hd]
      ring
    · rw [if_neg hd, if_neg hd]
      rw [show n * -sXY - sX * -sY = -(n * sXY - sX * sY) by ring, neg_div]

/-- An exact positive linear function of a non-constant vector gives
Pearson coefficient exactly 1. -/
theorem pearson_linear (x : List ℝ) (a b : ℝ) (ha : 0 < a)
    (hnc : ∃ u ∈ x, ∃ v ∈ x, u ≠ v) :
    calculatePearsonCorrelation x (x.map (fun t => a * t + b)) = 1 := by
  obtain ⟨u, hu, v, hv, huv⟩ := hnc
  have hSxx := sxx_pos x u v hu hv huv
  have h0 : ¬ (x.length = 0) := by
    rintro h
    rw [List.length_eq_zero.mp h] at hu
    simp at hu
  unfold calculatePearsonCorrelation
  rw [if_neg h0]
  dsimp only
  rw [rzip_self_map, rsum_map_mul_affine, rsum_map_affine, rsum_sq_affine]
  generalize hgn : (x.length : ℝ) = n at hSxx ⊢
  generalize hgS : x.sum = S at hSxx ⊢
  generalize hgA : (x.map (fun a => a * a)).sum = A at hSxx ⊢
  have hprod : (n * A - S * S) * (n * (a * a * A + 2 * a * b * S + n * (b * b)) -
      (a * S + n * b) * (a * S + n * b)) = (a * (n * A - S * S)) ^ 2 := by
    ring
  rw [hprod, Real.sqrt_sq (mul_nonneg ha.le hSxx.le)]
  rw [if_neg (ne_of_gt (mul_pos ha hSxx))]
  rw [show n * (a * A + b * S) - S * (a * S + n * b) = a * (n * A - S * S) by ring]
  exact div_self (ne_of_gt (mul_pos ha hSxx))

/-- A constant input vector (denominator zero) gives Pearson coefficient
exactly 0. -/
theorem pearson_constant (x y : List ℝ) (hlen : x.length = y.length)
    (hc : (∃ c, ∀ v ∈ x, v = c) ∨ (∃ c, ∀ v ∈ y, v = c)) :
    calculatePearsonCorrelation x y = 0 := by
  unfold calculatePearsonCorrelation
  by_cases h0 : x.length = 0
  · simp [h0]
  · rw [if_neg h0]
    dsimp only
    rcases hc with ⟨c, hcx⟩ | ⟨c, hcy⟩
    · have hS : x.sum = x.length * c := rsum_of_constant x c hcx
      have hA : (x.map (fun a => a * a)).sum = x.length * (c * c) := by
        have := rsum_of_constant (x.map (fun a => a * a)) (c * c) (by
          intro w hw
          obtain ⟨t, ht, rfl⟩ := List.mem_map.mp hw
          rw [hcx t ht])
        simpa using this
      rw [show ((x.length : ℝ) * (x.map (fun a => a * a)).sum - x.sum * x.sum) = 0 by
        rw [hS, hA]; ring]
      rw [zero_mul, Real.sqrt_zero, if_pos rfl]
    · have hS : y.sum = y.length * c := rsum_of_constant y c hcy
      have hB : (y.map (fun a => a * a)).sum = y.length * (c * c) := by
        have := rsum_of_constant (y.map (fun a => a * a)) (c * c) (by
          intro w hw
          obtain ⟨t, ht, rfl⟩ := List.mem_map.mp hw
          rw [hcy t ht])
        simpa using this
      rw [show ((x.length : ℝ) * (y.map (fun a => a * a)).sum - y.sum * y.sum) = 0 by
        rw [hS, hB, hlen]; ring]
      rw [mul_zero, Real.sqrt_zero, if_pos rfl]

/-- C7: the Pearson computation of `CorrelationAnalysis.tsx` (i) negates
its coefficient when one input vector is negated, (ii) returns exactly 1
when the second vector is an exact positive linear function of a
non-constant first vector, and (iii) returns exactly 0 when either
vector is constant (the denominator-zero fallback). -/
theorem pearson_sign_linearity_constant :
    (∀ x y : List ℝ, x.length = y.length →
        calculatePearsonCorrelation x (y.map (fun v => -v)) =
          -calculatePearsonCorrelation x y) ∧
    (∀ (x : List ℝ) (a b : ℝ), 0 < a → (∃ u ∈ x, ∃ v ∈ x, u ≠ v) →
        calculatePearsonCorrelation x (x.map (fun t => a * t + b)) = 1) ∧
    (∀ x y : List ℝ, x.length = y.length →
        ((∃ c, ∀ v ∈ x, v = c) ∨ (∃ c, ∀ v ∈ y, v = c)) →
        calculatePearsonCorrelation x y = 0) :=
  ⟨fun x y _ => pearson_neg x y,
   fun x a b ha hnc => pearson_linear x a b ha hnc,
   fun x y hlen hc => pearson_constant x y hlen hc⟩

/-- C7 witness: the three Pearson properties evaluated at concrete
vectors. -/
theorem pearson_sign_linearity_constant_witness :
    (calculatePearsonCorrelation [0, 1] (([3, 5] : List ℝ).map (fun v => -v)) =
      -calculatePearsonCorrelation [0, 1] [3, 5]) ∧
    (calculatePearsonCorrelation [0, 1] (([0, 1] : List ℝ).map (fun t => 2 * t + 1)) = 1) ∧
    (calculatePearsonCorrelation [0, 1] [4, 4] = 0) :=
  ⟨pearson_sign_linearity_constant.1 [0, 1] [3, 5] rfl,
   pearson_sign_linearity_constant.2.1 [0, 1] 2 1 (by norm_num)
     ⟨0, by norm_num, 1, by norm_num, by norm_num⟩,
   pearson_sign_linearity_constant.2.2 [0, 1] [4, 4] rfl
     (Or.inr ⟨4, by intro v hv; simpa using hv⟩)⟩

section SetModel

variable {α : Type} [DecidableEq α]

/-- Adding keeps the set duplicate-free. -/
theorem addToSet_nodup {s : List α} (h : s.Nodup) (x : α) : (addToSet s x).Nodup := by
  unfold addToSet
  split
  · exact h
  · simpa [List.nodup_append] using ⟨h, by assumption⟩

/-- Adding inserts into the underlying finite set. -/
theorem addToSet_toFinset (s : List α) (x : α) :
    (addToSet s x).toFinset = insert x s.toFinset := by
  unfold addToSet
  split
  · rw [Finset.insert_eq_self.mpr (List.mem_toFinset.mpr (by assumption))]
  · simp only [List.toFinset_append, List.toFinset_cons, List.toFinset_nil,
      insert_emptyc_eq]
    rw [Finset.union_comm, ← Finset.insert_eq]

/-- Folding `addToSet` keeps the accumulator duplicate-free. -/
theorem foldl_addToSet_nodup (l : List α) :
    ∀ acc : List α, acc.Nodup → (l.foldl addToSet acc).Nodup := by
  induction l with
  | nil => exact fun acc h => h
  | cons x t ih => exact fun acc h => ih _ (addToSet_nodup h x)

/-- Folding `addToSet` unions the underlying finite sets. -/
theorem foldl_addToSet_toFinset (l : List α) :
    ∀ acc : List α, (l.foldl addToSet acc).toFinset = acc.toFinset ∪ l.toFinset := by
  induction l with
  | nil => intro acc; simp
  | cons x t ih =>
      intro acc
      rw [List.foldl_cons, ih, addToSet_toFinset]
      ext w
      simp [or_comm, or_left_comm]

/-- The dedup list is duplicate-free. -/
theorem dedupKeep_nodup (l : List α) : (dedupKeep l).Nodup :=
  foldl_addToSet_nodup l [] (by simp)

/-- The dedup list has the distinct-element count of the original. -/
theorem dedupKeep_length (l : List α) : (dedupKeep l).length = l.toFinset.card := by
  rw [← List.toFinset_card_of_nodup (dedupKeep_nodup l)]
  unfold dedupKeep
  rw [foldl_addToSet_toFinset]
  simp

/-- Appending one element to the dedup input adds it to the set. -/
theorem dedupKeep_append (l : List α) (x : α) :
    dedupKeep (l ++ [x]) = addToSet (dedupKeep l) x := by
  unfold dedupKeep
  rw [List.foldl_append]
  rfl

end SetModel

/-- Splitting off the leading token of a label whose head contains no
space recovers that head. -/
theorem jsSplitFirst_append (a s : String) (h : ∀ c ∈ a.data, c ≠ ' ') :
    jsSplitFirst (a ++ " " ++ s) = a := by
  unfold jsSplitFirst
  rw [String.data_append, String.data_append]
  have hsp : (" " : String).data = [' '] := rfl
  rw [hsp, List.append_assoc]
  have key : ∀ (l : List Char), (∀ c ∈ l, c ≠ ' ') →
      (l ++ ' ' :: s.data).takeWhile (fun c => c ≠ ' ') = l := by
    intro l hl
    induction l with
    | nil => simp [List.takeWhile]
    | cons c t ih =>
        rw [List.cons_append, List.takeWhile_cons,
          show (decide (c ≠ ' ')) = true by simp [hl c (by simp)]]
        rw [if_pos rfl, ih (fun w hw => hl w (by simp [hw]))]
  rw [List.singleton_append, key a.data h]

/-- Recovering the calendar month number from the `'MMM yyyy'` label of a
bucket with a valid 1-based month. -/
theorem monthLabel_roundtrip (y : Int) (m1 : Nat) (h1 : 1 ≤ m1) (h2 : m1 ≤ 12) :
    getMonthNumber (jsSplitFirst (monthLabel y m1)) = (m1 : Int) := by
  interval_cases m1
  · rw [show monthLabel y 1 = "Jan" ++ " " ++ toString y from rfl,
      jsSplitFirst_append "Jan" (toString y) (by decide)]; decide
  · rw [show monthLabel y 2 = "Feb" ++ " " ++ toString y from rfl,
      jsSplitFirst_append "Feb" (toString y) (by decide)]; decide
  · rw [show monthLabel y 3 = "Mar" ++ " " ++ toString y from rfl,
      jsSplitFirst_append "Mar" (toString y) (by decide)]; decide
  · rw [show monthLabel y 4 = "Apr" ++ " " ++ toString y from rfl,
      jsSplitFirst_append "Apr" (toString y) (by decide)]; decide
  · rw [show monthLabel y 5 = "May" ++ " " ++ toString y from rfl,
      jsSplitFirst_append "May" (toString y) (by decide)]; decide
  · rw [show monthLabel y 6 = "Jun" ++ " " ++ toString y from rfl,
      jsSplitFirst_append "Jun" (toString y) (by decide)]; decide
  · rw [show monthLabel y 7 = "Jul" ++ " " ++ toString y from rfl,
      jsSplitFirst_append "Jul" (toString y) (by decide)]; decide
  · rw [show monthLabel y 8 = "Aug" ++ " " ++ toString y from rfl,
      jsSplitFirst_append "Aug" (toString y) (by decide)]; decide
  · rw [show monthLabel y 9 = "Sep" ++ " " ++ toString y from rfl,
      jsSplitFirst_append "Sep" (toString y) (by decide)]; decide
  · rw [show monthLabel y 10 = "Oct" ++ " " ++ toString y from rfl,
      jsSplitFirst_append "Oct" (toString y) (by decide)]; decide
  · rw [show monthLabel y 11 = "Nov" ++ " " ++ toString y from rfl,
      jsSplitFirst_append "Nov" (toString y) (by decide)]; decide
  · rw [show monthLabel y 12 = "Dec" ++ " " ++ toString y from rfl,
      jsSplitFirst_append "Dec" (toString y) (by decide)]; decide

/-- Invariant of the month-bucket map relative to the pairs consumed so
far: duplicate-free keys, every consumed pair's key present, and each
bucket's donor set being exactly the insertion-order dedup of the donor
ids of the consumed pairs with that key (each bucket key originating
from some consumed pair). -/
def BucketInv (m : List ((Int × Nat) × MonthBucket)) (c : List (String × Donation)) : Prop :=
  (m.map Prod.fst).Nodup ∧
  (∀ p ∈ c, bucketKey p.2 ∈ m.map Prod.fst) ∧
  ∀ kb ∈ m,
    kb.2.donors = dedupKeep ((c.filter (fun p => bucketKey p.2 = kb.1)).map Prod.fst) ∧
    ∃ p ∈ c, bucketKey p.2 = kb.1

/-- Filtering one appended pair. -/
theorem filter_append_pair (c : List (String × Donation)) (p : String × Donation)
    (k : Int × Nat) :
    (c ++ [p]).filter (fun q => bucketKey q.2 = k) =
      c.filter (fun q => bucketKey q.2 = k) ++
        (if bucketKey p.2 = k then [p] else []) := by
  rw [List.filter_append]
  congr 1
  by_cases h : bucketKey p.2 = k <;> simp [List.filter, h]

/-- One bucket step preserves the invariant. -/
theorem bucketInv_step {m : List ((Int × Nat) × MonthBucket)}
    {c : List (String × Donation)} (hinv : BucketInv m c) (p : String × Donation) :
    BucketInv (bucketStep m p) (c ++ [p]) := by
  obtain ⟨hnd, hcov, hmem⟩ := hinv
  by_cases hk : (alookup m (bucketKey p.2)).isSome
  · have hin : bucketKey p.2 ∈ m.map Prod.fst := by
      by_contra hno
      rw [alookup_none.mpr hno] at hk
      simp at hk
    refine ⟨?_, ?_, ?_⟩
    · simpa [bucketStep, hk, aupdate_keys] using hnd
    · intro q hq
      rcases List.mem_append.mp hq with hq | hq
      · simpa [bucketStep, hk, aupdate_keys] using hcov q hq
      · have : q = p := by simpa using hq
        subst this
        simpa [bucketStep, hk, aupdate_keys] using hin
    · intro kb hkb
      simp only [bucketStep, hk, if_true] at hkb
      rcases mem_aupdate_of_nodup hnd hkb with ⟨h1, hne⟩ | ⟨b, hb, hkb2⟩
      · obtain ⟨hdon, q, hq, hqk⟩ := hmem _ h1
        refine ⟨?_, q, List.mem_append_left _ hq, hqk⟩
        rw [filter_append_pair, if_neg (fun he => hne he.symm)]
        simpa using hdon
      · obtain ⟨hdon, _⟩ := hmem _ hb
        subst hkb2
        constructor
        · dsimp only
          dsimp only at hdon
          rw [filter_append_pair, if_pos rfl, List.map_append, List.map_cons, List.map_nil,
            dedupKeep_append, ← hdon]
        · exact ⟨p, List.mem_append_right _ (by simp), rfl⟩
  · have hnotin : bucketKey p.2 ∉ m.map Prod.fst :=
      alookup_none.mp (Option.not_isSome_iff_eq_none.mp hk)
    have hnd1 : (((m ++ [(bucketKey p.2, (⟨0, []⟩ : MonthBucket))]).map Prod.fst).Nodup) := by
      simpa using List.Nodup.append hnd (by simp) (by simpa using hnotin)
    refine ⟨?_, ?_, ?_⟩
    · simpa [bucketStep, hk, aupdate_keys] using hnd1
    · intro q hq
      rcases List.mem_append.mp hq with hq | hq
      · have := hcov q hq
        simp only [bucketStep, hk, if_false, aupdate_keys]
        simpa using Or.inl this
      · have : q = p := by simpa using hq
        subst this
        simp [bucketStep, hk, aupdate_keys]
    · intro kb hkb
      simp only [bucketStep, hk, if_false] at hkb
      rcases mem_aupdate_of_nodup hnd1 hkb with ⟨h1, hne⟩ | ⟨b, hb, hkb2⟩
      · rcases List.mem_append.mp h1 with h2 | h2
        · obtain ⟨hdon, q, hq, hqk⟩ := hmem _ h2
          refine ⟨?_, q, List.mem_append_left _ hq, hqk⟩
          rw [filter_append_pair, if_neg (fun he => hne he.symm)]
          simpa using hdon
        · have h3 : kb = (bucketKey p.2, (⟨0, []⟩ : MonthBucket)) := by simpa using h2
          exact absurd (by rw [h3]) hne
      · rcases List.mem_append.mp hb with h2 | h2
        · exact absurd (List.mem_map_of_mem Prod.fst h2) hnotin
        · have hb2 : b = (⟨0, []⟩ : MonthBucket) := by simpa using h2
          subst hkb2 hb2
          constructor
          · dsimp only
            have hfc : c.filter (fun q => bucketKey q.2 = bucketKey p.2) = [] := by
              rw [List.filter_eq_nil_iff]
              intro q hq
              simp only [decide_eq_true_eq]
              intro hqk
              exact hnotin (hqk ▸ hcov q hq)
            rw [filter_append_pair, if_pos rfl, hfc]
            rfl
          · exact ⟨p, List.mem_append_right _ (by simp), rfl⟩

/-- The bucket map of `calculateMonthlyTrends` satisfies the invariant
for the whole pair sequence. -/
theorem bucketInv_all (donors : List DonorData) :
    BucketInv (monthlyBuckets donors) (donationPairs donors) := by
  unfold monthlyBuckets
  generalize donationPairs donors = ps
  have main : ∀ (l : List (String × Donation)) (m : List ((Int × Nat) × MonthBucket))
      (c : List (String × Donation)), BucketInv m c → BucketInv (l.foldl bucketStep m) (c ++ l) := by
    intro l
    induction l with
    | nil => intro m c h; simpa using h
    | cons q t ih =>
        intro m c h
        have := ih (bucketStep m q) (c ++ [q]) (bucketInv_step h q)
        simpa using this
  have base : BucketInv [] [] := ⟨by simp, by simp, by simp⟩
  simpa using main ps [] [] base

/-- Every donor-id/donation pair comes from a donor of the input list. -/
theorem mem_donationPairs {donors : List DonorData} {p : String × Donation}
    (h : p ∈ donationPairs donors) : ∃ d ∈ donors, p.2 ∈ d.donations := by
  unfold donationPairs at h
  obtain ⟨d, hd, hp⟩ := List.mem_flatMap.mp h
  obtain ⟨dn, hdn, rfl⟩ := List.mem_map.mp hp
  exact ⟨d, hd, hdn⟩

/-- Bucket keys carry a 1-based month in range when all donation dates
carry a calendar month. -/
theorem bucket_month_range {donors : List DonorData}
    (hval : ∀ d ∈ donors, ∀ dn ∈ d.donations, dn.date.month < 12)
    {kb : (Int × Nat) × MonthBucket} (hkb : kb ∈ monthlyBuckets donors) :
    1 ≤ kb.1.2 ∧ kb.1.2 ≤ 12 := by
  obtain ⟨_, _, hmem⟩ := bucketInv_all donors
  obtain ⟨_, p, hp, hpk⟩ := hmem kb hkb
  obtain ⟨d, hd, hdn⟩ := mem_donationPairs hp
  have := hval d hd p.2 hdn
  have hkey : p.2.date.month + 1 = kb.1.2 := by
    have := congrArg Prod.snd hpk
    simpa [bucketKey] using this
  omega

/-- C8: the MonthlyTrend sequence is strictly sorted by year and then by
the calendar month number recovered from the label (hence contains no
duplicate month), and each entry's `donorCount` is the number of
distinct donor identifiers giving in that entry's month.  The hypothesis
states that donation dates carry calendar months (`getMonth()` is always
0-11 in JavaScript). -/
theorem monthlyTrends_sorted_distinct (donors : List DonorData)
    (hval : ∀ d ∈ donors, ∀ dn ∈ d.donations, dn.date.month < 12) :
    (calculateMonthlyTrends donors).Pairwise (fun a b =>
        a.year < b.year ∨ (a.year = b.year ∧
          getMonthNumber (jsSplitFirst a.month) < getMonthNumber (jsSplitFirst b.month))) ∧
    ∀ t ∈ calculateMonthlyTrends donors,
      t.donorCount = (((donationPairs donors).filter (fun p =>
          p.2.date.year = t.year ∧
          ((p.2.date.month : Int) + 1) = getMonthNumber (jsSplitFirst t.month))).map
        Prod.fst).toFinset.card := by
  obtain ⟨hnd, hcov, hmem⟩ := bucketInv_all donors
  have hgm : ∀ kb ∈ monthlyBuckets donors,
      getMonthNumber (jsSplitFirst (bucketToTrend kb).month) = (kb.1.2 : Int) := by
    intro kb hkb
    obtain ⟨h1, h2⟩ := bucket_month_range hval hkb
    exact monthLabel_roundtrip kb.1.1 kb.1.2 h1 h2
  have hperm : List.Perm (calculateMonthlyTrends donors)
      ((monthlyBuckets donors).map bucketToTrend) :=
    List.perm_insertionSort trendLe _
  have hsort : List.Sorted trendLe (calculateMonthlyTrends donors) :=
    List.sorted_insertionSort trendLe _
  have hmapkeys : ((monthlyBuckets donors).map bucketToTrend).map
      (fun t => (t.year, getMonthNumber (jsSplitFirst t.month))) =
      ((monthlyBuckets donors).map Prod.fst).map (fun k => (k.1, (k.2 : Int))) := by
    rw [List.map_map, List.map_map]
    refine List.map_congr_left ?_
    intro kb hkb
    have := hgm kb hkb
    simp only [Function.comp]
    rw [this]
    rfl
  have hnd2 : (((monthlyBuckets donors).map bucketToTrend).map
      (fun t => (t.year, getMonthNumber (jsSplitFirst t.month)))).Nodup := by
    rw [hmapkeys]
    exact hnd.map (fun a b hab => by
      obtain ⟨h1, h2⟩ := Prod.mk.injEq _ _ _ _ ▸ hab
      exact Prod.ext h1 (by exact_mod_cast h2))
  have hnd3 : ((calculateMonthlyTrends donors).map
      (fun t => (t.year, getMonthNumber (jsSplitFirst t.month)))).Nodup :=
    (hperm.symm.map _).nodup hnd2
  constructor
  · have hnepair : (calculateMonthlyTrends donors).Pairwise (fun a b =>
        ((a.year, getMonthNumber (jsSplitFirst a.month)) : Int × Int) ≠
          (b.year, getMonthNumber (jsSplitFirst b.month))) :=
      List.pairwise_map.mp hnd3
    refine (hsort.and hnepair).imp ?_
    rintro a b ⟨hle, hne⟩
    rcases hle with h | ⟨hy, hm⟩
    · exact Or.inl h
    · exact Or.inr ⟨hy, lt_of_le_of_ne hm (fun he => hne (by rw [hy, he]))⟩
  · intro t ht
    have ht2 : t ∈ (monthlyBuckets donors).map bucketToTrend := hperm.mem_iff.mp ht
    obtain ⟨kb, hkb, heq⟩ := List.mem_map.mp ht2
    obtain ⟨hdon, _⟩ := hmem kb hkb
    have hy : t.year = kb.1.1 := by rw [← heq]; rfl
    have hgmt : getMonthNumber (jsSplitFirst t.month) = (kb.1.2 : Int) := by
      rw [← heq]; exact hgm kb hkb
    have hfeq : (donationPairs donors).filter (fun p =>
        p.2.date.year = t.year ∧
        ((p.2.date.month : Int) + 1) = getMonthNumber (jsSplitFirst t.month)) =
        (donationPairs donors).filter (fun p => bucketKey p.2 = kb.1) := by
      refine List.filter_congr ?_
      intro p _
      rw [hy, hgmt]
      simp only [decide_eq_decide]
      constructor
      · rintro ⟨hyy, hmm⟩
        have : p.2.date.month + 1 = kb.1.2 := by exact_mod_cast hmm
        rw [bucketKey, Prod.ext_iff]
        exact ⟨hyy, this⟩
      · intro hk
        have h1 := congrArg Prod.fst hk
        have h2 := congrArg Prod.snd hk
        simp only [bucketKey] at h1 h2
        exact ⟨h1, by exact_mod_cast h2⟩
    rw [hfeq, ← dedupKeep_length, ← hdon, ← heq]
    rfl

/-- C8 witness: the sortedness and distinct-donor-count conclusions on a
concrete donor list. -/
theorem monthlyTrends_sorted_distinct_witness :
    (calculateMonthlyTrends [c3Donor]).Pairwise (fun a b =>
        a.year < b.year ∨ (a.year = b.year ∧
          getMonthNumber (jsSplitFirst a.month) < getMonthNumber (jsSplitFirst b.month))) ∧
    ∀ t ∈ calculateMonthlyTrends [c3Donor],
      t.donorCount = (((donationPairs [c3Donor]).filter (fun p =>
          p.2.date.year = t.year ∧
          ((p.2.date.month : Int) + 1) = getMonthNumber (jsSplitFirst t.month))).map
        Prod.fst).toFinset.card :=
  monthlyTrends_sorted_distinct [c3Donor] (by decide)

/-- A string with a non-blank trim is itself non-empty, hence truthy. -/
theorem truthy_of_trim_ne (s : String) (h : jsTrim s ≠ "") :
    (CellValue.str s).truthy = true := by
  simp only [CellValue.truthy, ne_eq, decide_eq_true_eq]
  rintro rfl
  exact h rfl

/-- The name-detection fallback never downgrades a truthy firstName. -/
theorem fallbackNameStep_fst_truthy {acc : Option CellValue × Option CellValue}
    (h : truthyOpt acc.1 = true) (kv : String × CellValue) :
    truthyOpt (fallbackNameStep acc kv).1 = true := by
  unfold fallbackNameStep
  cases kv.2 with
  | num q => exact h
  | str s =>
      dsimp only
      by_cases ht : jsTrim s ≠ ""
      · rw [if_pos ht, if_neg (fun hc => by simp [h] at hc)]
        split
        · exact h
        · exact h
      · rw [if_neg ht]
        exact h

/-- Folded version of the preservation lemma. -/
theorem foldl_fallbackName_fst_truthy (l : List (String × CellValue)) :
    ∀ acc : Option CellValue × Option CellValue, truthyOpt acc.1 = true →
      truthyOpt (l.foldl fallbackNameStep acc).1 = true := by
  induction l with
  | nil => exact fun _ h => h
  | cons kv t ih => exact fun acc h => ih _ (fallbackNameStep_fst_truthy h kv)

/-- If some remaining entry is a name-like or first-like column holding a
non-blank string, the fold ends with a truthy firstName. -/
theorem foldl_fallbackName_fst_of_mem (l : List (String × CellValue)) :
    ∀ acc : Option CellValue × Option CellValue,
      (∃ kv ∈ l, (strIncludes kv.1 "name" || strIncludes kv.1 "first") = true ∧
        ∃ s, kv.2 = .str s ∧ jsTrim s ≠ "") →
      truthyOpt (l.foldl fallbackNameStep acc).1 = true := by
  induction l with
  | nil => rintro acc ⟨kv, hkv, _⟩; simp at hkv
  | cons kv0 t ih =>
      rintro acc ⟨kv, hkv, hinc, s, hs, hsne⟩
      by_cases hacc : truthyOpt acc.1 = true
      · rw [List.foldl_cons]
        exact foldl_fallbackName_fst_truthy t _ (fallbackNameStep_fst_truthy hacc kv0)
      · rcases List.mem_cons.mp hkv with rfl | hkv
        · rw [List.foldl_cons]
          have hstep : truthyOpt (fallbackNameStep acc kv).1 = true := by
            unfold fallbackNameStep
            rw [hs]
            dsimp only
            rw [if_pos hsne, if_pos ⟨by simpa using hacc, by simpa using hinc⟩]
            simpa using truthy_of_trim_ne s hsne
          exact foldl_fallbackName_fst_truthy _ _ hstep
        · exact ih _ ⟨kv, hkv, hinc, s, hs, hsne⟩

/-- Whether a cell holds a string that stays non-empty after trimming. -/
def isNonBlankStr : CellValue → Bool
  | .str s => jsTrim s ≠ ""
  | .num _ => false

/-- C10 (amended): whenever some column of the normalized row has a
header containing `name` and a string value that is non-blank after
trimming, field mapping ends with a truthy `firstName` (via the exact
`name` synonym, the substring fallback, or the content-detection
fallback — though an exact synonym of another column may win the value),
and consequently the separate combined `name` field is never produced,
so the Record Builder's whitespace split is not exercised. -/
theorem mapFields_name_column (row : RawRow)
    (h : ∃ kv ∈ normalizeRow row, strIncludes kv.1 "name" = true ∧
      isNonBlankStr kv.2 = true) :
    truthyOpt (mapFields row).firstName = true ∧ (mapFields row).name = none := by
  obtain ⟨kv, hkv, hinc, hnb⟩ := h
  obtain ⟨s, hs, hsne⟩ : ∃ s, kv.2 = CellValue.str s ∧ jsTrim s ≠ "" := by
    cases hv : kv.2 with
    | str s2 =>
        refine ⟨s2, rfl, ?_⟩
        rw [hv] at hnb
        simpa [isNonBlankStr] using hnb
    | num q =>
        rw [hv] at hnb
        simp [isNonBlankStr] at hnb
  have hfst : truthyOpt (fallbackNames (normalizeRow row)
      (baseField (normalizeRow row) firstNamePatterns)
      (baseField (normalizeRow row) lastNamePatterns)).1 = true := by
    unfold fallbackNames
    split
    · exact foldl_fallbackName_fst_of_mem _ _
        ⟨kv, hkv, by simp [hinc], s, hs, hsne⟩
    · rename_i hcond
      push_neg at hcond
      simpa using hcond.1
  constructor
  · simpa [mapFields] using hfst
  · simp only [mapFields]
    unfold fallbackWholeName
    rw [if_neg (fun hc => by simp [hfst] at hc)]

/-- C10 counterexample: a row whose only name-like column is `last_name`
(whose normalized header contains `name` and holds the non-empty string
`Smith`).  The substring fallback assigns `Smith` to firstName and the
exact `last_name` synonym assigns the same column to lastName, so the
resulting donation is `("Smith", "Smith")` — lastName is not empty even
though no *distinct* last-name-like column matched, refuting the claim's
final clause. -/
theorem c10_counterexample :
    (processRawData (fun _ => none) ⟨2025, 0, 15⟩ 2025
      [[("last_name", CellValue.str "Smith"), ("amount", CellValue.num 50)]]).map
        (fun d => (d.firstName, d.lastName)) = [("Smith", "Smith")] := by
  rfl

/-- C10 witness: the amended mapping rule evaluated on a row with a
`Donor Name` column. -/
theorem mapFields_name_column_witness :
    truthyOpt (mapFields [("Donor Name", CellValue.str "John Smith"),
      ("Amount", CellValue.num 100)]).firstName = true ∧
    (mapFields [("Donor Name", CellValue.str "John Smith"),
      ("Amount", CellValue.num 100)]).name = none :=
  mapFields_name_column _ (by decide)
